import Mathlib

/-!
# Verification of apollo-cursor-pagination-ts

A shallow embedding, in Lean 4, of the cursor-pagination library:

* the generic pagination core (`src/builder`, seen as `part_004`):
  `applyCursorsToNodes`, `nodesToReturn`, `apolloCursorPaginationBuilder`,
  and the base64 cursor codec `encode` / `decode`;
* the Knex adapter (`src/orm-connectors/knex/index.ts`):
  `applyOrderBy`, `cursorGenerator`, `getDataFromCursor`,
  `convertNodesToEdges`.

JavaScript semantics are modelled explicitly: optional arguments are
`Option`s, JS truthiness of numbers (`0` is falsy) and of strings (`""` is
falsy) is spelled out, thrown `Error`s become `Except.error` carrying the
message, and JS string/number values carried by nodes are a small `JsValue`
type with `JSON.stringify` / `JSON.parse` and template-literal coercion
modelled at the character-list level.
-/

namespace ApolloPagination

/-! ## JS-flavoured basics -/

/-- A TS `string | string[]` union (used for `orderBy` / `orderColumn` and,
directions being strings, for `orderDirection` / `ascOrDesc`). -/
inductive StrOrArr where
  | scalar (s : String)
  | arr (l : List String)
deriving DecidableEq, Repr

/-- JS truthiness of an optional string: `undefined` and `""` are falsy. -/
def jsStrTruthy : Option String → Bool
  | none => false
  | some s => !s.isEmpty

/-- JS truthiness of an optional number: `undefined` and `0` are falsy. -/
def jsIntTruthy : Option Int → Bool
  | none => false
  | some n => n != 0

/-! ## Pagination core (`part_004`, current `builder` module)

The core is generic over the node type `N` and the accessor type `NA`.
The column-reference type parameter `C` and primary-key type `PK` of the
source are instantiated at `String`, which is how every claim uses them. -/

/-- `OrderArgs` of the builder: the resolved ordering options handed to
every adapter operator. -/
structure OrderArgs (N : Type) where
  orderColumn : StrOrArr
  ascOrDesc : StrOrArr
  isAggregateFn : Option (String → Bool) := none
  formatColumnFn : Option (String → Bool → String) := none
  formatPrimaryKeyFn : Option (N → String) := none
  primaryKey : String

/-- `GraphQLParams` of the builder. -/
structure GraphQLParams where
  before : Option String := none
  after : Option String := none
  first : Option Int := none
  last : Option Int := none
  orderDirection : Option StrOrArr := none
  orderBy : Option StrOrArr := none

/-- The `Pick<GraphQLParams, 'before' | 'after' | 'first' | 'last'>`
record threaded to `nodesToReturn` and `convertNodesToEdges`. -/
structure SliceParams where
  before : Option String := none
  after : Option String := none
  first : Option Int := none
  last : Option Int := none
deriving DecidableEq

/-- Projection of the slice-relevant params. -/
def GraphQLParams.toSlice (args : GraphQLParams) : SliceParams :=
  { before := args.before, after := args.after
    first := args.first, last := args.last }

/-- An edge: `{ cursor, node }`. -/
structure Edge (N : Type) where
  cursor : String
  node : N
deriving DecidableEq, Repr

/-- `PageInfo` of the builder (optional cursors are JS `undefined`). -/
structure PageInfo where
  hasPreviousPage : Bool
  hasNextPage : Bool
  startCursor : Option String
  endCursor : Option String
deriving DecidableEq, Repr

/-- `ConnectionResult` of the builder. -/
structure ConnectionResult (N : Type) where
  pageInfo : PageInfo
  totalCount : Option Int
  edges : List (Edge N)
deriving DecidableEq, Repr

/-- The `OperatorFunctions` record an adapter implements.  The `return*`
operators are modelled as pure functions of the accessor (each awaited
exactly once by the core). -/
structure OperatorFunctions (N NA : Type) where
  applyAfterCursor : NA → String → OrderArgs N → NA
  applyBeforeCursor : NA → String → OrderArgs N → NA
  applyOrderBy : NA → OrderArgs N → NA
  returnNodesForFirst : NA → Int → OrderArgs N → List N
  returnNodesForLast : NA → Int → OrderArgs N → List N
  returnTotalCount : NA → Int
  convertNodesToEdges : List N → SliceParams → OrderArgs N → List (Edge N)

/-- `BuilderOptions` of the builder. -/
structure BuilderOptions (N : Type) where
  isAggregateFn : Option (String → Bool) := none
  formatColumnFn : Option (String → Bool → String) := none
  formatPrimaryKeyFn : Option (N → String) := none
  primaryKey : Option String := none
  skipTotalCount : Bool := false
  modifyEdgeFn : Option (Edge N → Edge N) := none

/-- `applyCursorsToNodes`: apply `after` then `before` cursor bounds to the
accessor; a JS-falsy cursor (absent or empty) is skipped. -/
def applyCursorsToNodes {N NA : Type} (ops : OperatorFunctions N NA)
    (allNodesAccessor : NA) (before after : Option String)
    (opts : OrderArgs N) : NA :=
  let acc1 := if jsStrTruthy after then
    ops.applyAfterCursor allNodesAccessor (after.getD "") opts
  else allNodesAccessor
  if jsStrTruthy before then ops.applyBeforeCursor acc1 (before.getD "") opts
  else acc1

/-- Result record of `nodesToReturn`. -/
structure SliceResult (N : Type) where
  nodes : List N
  hasNextPage : Bool
  hasPreviousPage : Bool
deriving DecidableEq, Repr

/-- `nodesToReturn` of the builder: order the accessor, apply cursor
bounds, validate `first` / `last` (JS truthiness: `0` behaves as absent),
fetch `first + 1` (resp. `last + 1`) nodes and derive the boundary flags.
Thrown `Error`s are `Except.error` of the message. -/
def nodesToReturn {N NA : Type} (ops : OperatorFunctions N NA)
    (allNodesAccessor : NA) (ps : SliceParams) (opts : OrderArgs N) :
    Except String (SliceResult N) :=
  let orderedNodesAccessor := ops.applyOrderBy allNodesAccessor opts
  let nodesAccessor :=
    applyCursorsToNodes ops orderedNodesAccessor ps.before ps.after opts
  let hasNextPage := jsStrTruthy ps.before
  let hasPreviousPage := jsStrTruthy ps.after
  if jsIntTruthy ps.first && jsIntTruthy ps.last then
    .error "Cannot specify both `first` and `last` arguments"
  else if jsIntTruthy ps.first then
    let first := ps.first.getD 0
    if first < 0 then .error "`first` argument must not be less than 0"
    else
      let nodes := ops.returnNodesForFirst nodesAccessor (first + 1) opts
      if (nodes.length : Int) > first then
        .ok ⟨nodes.take first.toNat, true, hasPreviousPage⟩
      else .ok ⟨nodes, hasNextPage, hasPreviousPage⟩
  else if jsIntTruthy ps.last then
    let last := ps.last.getD 0
    if last < 0 then .error "`last` argument must not be less than 0"
    else
      let nodes := ops.returnNodesForLast nodesAccessor (last + 1) opts
      if (nodes.length : Int) > last then
        .ok ⟨nodes.drop 1, hasNextPage, true⟩
      else .ok ⟨nodes, hasNextPage, hasPreviousPage⟩
  else .error "`first` or `last` argument must be provided"

/-- The `OrderArgs` record the builder assembles from its arguments:
`orderBy` defaults to the primary key and `orderDirection` to `"asc"`,
`primaryKey` defaults to `"id"`. -/
def resolveOrderArgs {N : Type} (args : GraphQLParams)
    (opts : BuilderOptions N) : OrderArgs N :=
  let primaryKey := opts.primaryKey.getD "id"
  { orderColumn := args.orderBy.getD (.scalar primaryKey)
    ascOrDesc := args.orderDirection.getD (.scalar "asc")
    isAggregateFn := opts.isAggregateFn
    formatColumnFn := opts.formatColumnFn
    formatPrimaryKeyFn := opts.formatPrimaryKeyFn
    primaryKey := primaryKey }

/-- `if (modifyEdgeFn) edges = edges.map((edge) => modifyEdgeFn(edge))`. -/
def applyModifyEdge {N : Type} (opts : BuilderOptions N)
    (edges : List (Edge N)) : List (Edge N) :=
  match opts.modifyEdgeFn with
  | some f => edges.map f
  | none => edges

/-- The tail of the builder after `nodesToReturn` resolves: total count on
the accessor as passed in, edge conversion, optional edge decoration and
`PageInfo` assembly (`edges[0]?.cursor` / `edges[edges.length - 1]?.cursor`
are `Option`-valued). -/
def assembleConnection {N NA : Type} (ops : OperatorFunctions N NA)
    (allNodesAccessor : NA) (args : GraphQLParams)
    (opts : BuilderOptions N) (r : SliceResult N) : ConnectionResult N :=
  let orderArgs := resolveOrderArgs args opts
  let totalCount :=
    if !opts.skipTotalCount then some (ops.returnTotalCount allNodesAccessor)
    else none
  let edges :=
    applyModifyEdge opts (ops.convertNodesToEdges r.nodes args.toSlice orderArgs)
  { pageInfo :=
      { hasPreviousPage := r.hasPreviousPage
        hasNextPage := r.hasNextPage
        startCursor := edges.head?.map (·.cursor)
        endCursor := edges.getLast?.map (·.cursor) }
    totalCount := totalCount
    edges := edges }

/-- `apolloCursorPaginationBuilder` applied to operators, accessor,
arguments and options: the full pagination pipeline. -/
def apolloCursorPaginationBuilder {N NA : Type}
    (ops : OperatorFunctions N NA) (allNodesAccessor : NA)
    (args : GraphQLParams := {}) (opts : BuilderOptions N := {}) :
    Except String (ConnectionResult N) :=
  (nodesToReturn ops allNodesAccessor args.toSlice (resolveOrderArgs args opts)).map
    (assembleConnection ops allNodesAccessor args opts)

/-! ### A small concrete adapter over `List Nat`

Used to instantiate the generic core in witnesses and counterexamples; a
cursor is the decimal string of the node, the list is its own accessor. -/

/-- List-of-naturals instantiation of the operator interface. -/
def listOps : OperatorFunctions Nat (List Nat) where
  applyAfterCursor acc c _ := (acc.dropWhile (fun n => toString n ≠ c)).drop 1
  applyBeforeCursor acc c _ := acc.takeWhile (fun n => toString n ≠ c)
  applyOrderBy acc _ := acc
  returnNodesForFirst acc count _ := acc.take count.toNat
  returnNodesForLast acc count _ := acc.drop (acc.length - count.toNat)
  returnTotalCount acc := (acc.length : Int)
  convertNodesToEdges nodes _ _ := nodes.map (fun n => ⟨toString n, n⟩)

/-! ### Evaluation lemmas for `nodesToReturn` -/

/-- The accessor after ordering and cursor bounds, before slicing. -/
def boundedAccessor {N NA : Type} (ops : OperatorFunctions N NA)
    (allNodesAccessor : NA) (ps : SliceParams) (opts : OrderArgs N) : NA :=
  applyCursorsToNodes ops (ops.applyOrderBy allNodesAccessor opts)
    ps.before ps.after opts

lemma nodesToReturn_first_eq {N NA : Type} (ops : OperatorFunctions N NA)
    (acc : NA) (ps : SliceParams) (opts : OrderArgs N) (k : Int)
    (hf : ps.first = some k) (hk : 0 < k) (hl : jsIntTruthy ps.last = false) :
    nodesToReturn ops acc ps opts =
      if ((ops.returnNodesForFirst (boundedAccessor ops acc ps opts) (k + 1)
            opts).length : Int) > k then
        .ok ⟨(ops.returnNodesForFirst (boundedAccessor ops acc ps opts) (k + 1)
            opts).take k.toNat, true, jsStrTruthy ps.after⟩
      else
        .ok ⟨ops.returnNodesForFirst (boundedAccessor ops acc ps opts) (k + 1)
            opts, jsStrTruthy ps.before, jsStrTruthy ps.after⟩ := by
  have h0 : jsIntTruthy (some k) = true := by
    simp only [jsIntTruthy, bne_iff_ne, ne_eq]
    omega
  have hnn : ¬ k < 0 := by omega
  simp only [nodesToReturn, hf, h0, hl, Bool.true_and, Bool.false_eq_true,
    if_false, if_true, Option.getD_some, hnn, boundedAccessor]

lemma nodesToReturn_last_eq {N NA : Type} (ops : OperatorFunctions N NA)
    (acc : NA) (ps : SliceParams) (opts : OrderArgs N) (k : Int)
    (hf : jsIntTruthy ps.first = false) (hl : ps.last = some k) (hk : 0 < k) :
    nodesToReturn ops acc ps opts =
      if ((ops.returnNodesForLast (boundedAccessor ops acc ps opts) (k + 1)
            opts).length : Int) > k then
        .ok ⟨(ops.returnNodesForLast (boundedAccessor ops acc ps opts) (k + 1)
            opts).drop 1, jsStrTruthy ps.before, true⟩
      else
        .ok ⟨ops.returnNodesForLast (boundedAccessor ops acc ps opts) (k + 1)
            opts, jsStrTruthy ps.before, jsStrTruthy ps.after⟩ := by
  have h0 : jsIntTruthy (some k) = true := by
    simp only [jsIntTruthy, bne_iff_ne, ne_eq]
    omega
  have hnn : ¬ k < 0 := by omega
  simp only [nodesToReturn, hf, hl, h0, Bool.false_and, Bool.false_eq_true,
    if_false, if_true, Option.getD_some, hnn, boundedAccessor]

lemma nodesToReturn_neither_eq {N NA : Type} (ops : OperatorFunctions N NA)
    (acc : NA) (ps : SliceParams) (opts : OrderArgs N)
    (hf : jsIntTruthy ps.first = false) (hl : jsIntTruthy ps.last = false) :
    nodesToReturn ops acc ps opts =
      .error "`first` or `last` argument must be provided" := by
  simp only [nodesToReturn, hf, hl, Bool.false_and, Bool.false_eq_true,
    if_false]

lemma toSlice_first (args : GraphQLParams) : args.toSlice.first = args.first := rfl

lemma toSlice_last (args : GraphQLParams) : args.toSlice.last = args.last := rfl

/-- The `first + 1` probe fetch the core performs for a forward page:
`returnNodesForFirst` on the ordered, cursor-bounded accessor. -/
def fetchedFirst {N NA : Type} (ops : OperatorFunctions N NA) (acc : NA)
    (args : GraphQLParams) (opts : BuilderOptions N) (k : Int) : List N :=
  ops.returnNodesForFirst
    (boundedAccessor ops acc args.toSlice (resolveOrderArgs args opts))
    (k + 1) (resolveOrderArgs args opts)

/-- The `last + 1` probe fetch the core performs for a backward page. -/
def fetchedLast {N NA : Type} (ops : OperatorFunctions N NA) (acc : NA)
    (args : GraphQLParams) (opts : BuilderOptions N) (k : Int) : List N :=
  ops.returnNodesForLast
    (boundedAccessor ops acc args.toSlice (resolveOrderArgs args opts))
    (k + 1) (resolveOrderArgs args opts)

/-- C1: with a positive `first = k` and no `last`, the core requests
`k + 1` nodes from `returnNodesForFirst` on the ordered, cursor-bounded
accessor (the result depends on `returnNodesForFirst` only through that
one call); when more than `k` nodes come back, `hasNextPage` is true and
the edges are built from exactly the first `k` of them; when at most `k`
come back all of them become edges and `hasNextPage` is true exactly when
a `before` cursor was supplied (JS truthiness: an absent or empty `before`
counts as not supplied). -/
theorem first_forward_slice_spec {N NA : Type} (ops : OperatorFunctions N NA)
    (acc : NA) (args : GraphQLParams) (opts : BuilderOptions N) (k : Int)
    (hf : args.first = some k) (hk : 0 < k) (hl : args.last = none) :
    ∃ res : ConnectionResult N,
      apolloCursorPaginationBuilder ops acc args opts = .ok res ∧
      (k < ((fetchedFirst ops acc args opts k).length : Int) →
        res.pageInfo.hasNextPage = true ∧
        res.edges = applyModifyEdge opts
          (ops.convertNodesToEdges ((fetchedFirst ops acc args opts k).take k.toNat)
            args.toSlice (resolveOrderArgs args opts))) ∧
      (((fetchedFirst ops acc args opts k).length : Int) ≤ k →
        res.pageInfo.hasNextPage = jsStrTruthy args.before ∧
        res.edges = applyModifyEdge opts
          (ops.convertNodesToEdges (fetchedFirst ops acc args opts k)
            args.toSlice (resolveOrderArgs args opts))) ∧
      (∀ g : NA → Int → OrderArgs N → List N,
        g (boundedAccessor ops acc args.toSlice (resolveOrderArgs args opts))
            (k + 1) (resolveOrderArgs args opts) =
          fetchedFirst ops acc args opts k →
        apolloCursorPaginationBuilder { ops with returnNodesForFirst := g }
            acc args opts =
          apolloCursorPaginationBuilder ops acc args opts) := by
  have hf' : args.toSlice.first = some k := by rw [toSlice_first, hf]
  have hl' : jsIntTruthy args.toSlice.last = false := by
    rw [toSlice_last, hl]; rfl
  have hmain := nodesToReturn_first_eq ops acc args.toSlice
    (resolveOrderArgs args opts) k hf' hk hl'
  rw [show ops.returnNodesForFirst
      (boundedAccessor ops acc args.toSlice (resolveOrderArgs args opts))
      (k + 1) (resolveOrderArgs args opts) = fetchedFirst ops acc args opts k
    from rfl] at hmain
  have hindep : ∀ g : NA → Int → OrderArgs N → List N,
      g (boundedAccessor ops acc args.toSlice (resolveOrderArgs args opts))
          (k + 1) (resolveOrderArgs args opts) =
        fetchedFirst ops acc args opts k →
      apolloCursorPaginationBuilder { ops with returnNodesForFirst := g }
          acc args opts =
        apolloCursorPaginationBuilder ops acc args opts := by
    intro g hg
    rw [apolloCursorPaginationBuilder, apolloCursorPaginationBuilder, hmain,
      nodesToReturn_first_eq { ops with returnNodesForFirst := g }
        acc args.toSlice (resolveOrderArgs args opts) k hf' hk hl']
    have e1 : ({ ops with returnNodesForFirst := g} :
        OperatorFunctions N NA).returnNodesForFirst = g := rfl
    have e2 : boundedAccessor { ops with returnNodesForFirst := g }
        acc args.toSlice (resolveOrderArgs args opts) =
        boundedAccessor ops acc args.toSlice (resolveOrderArgs args opts) := rfl
    rw [e1, e2, hg]
    rfl
  by_cases hlen : k < ((fetchedFirst ops acc args opts k).length : Int)
  · refine ⟨assembleConnection ops acc args opts
      ⟨(fetchedFirst ops acc args opts k).take k.toNat, true,
        jsStrTruthy args.toSlice.after⟩, ?_, ?_, ?_, hindep⟩
    · rw [apolloCursorPaginationBuilder, hmain, if_pos hlen]
      rfl
    · intro _
      exact ⟨rfl, rfl⟩
    · intro h
      omega
  · refine ⟨assembleConnection ops acc args opts
      ⟨fetchedFirst ops acc args opts k, jsStrTruthy args.toSlice.before,
        jsStrTruthy args.toSlice.after⟩, ?_, ?_, ?_, hindep⟩
    · rw [apolloCursorPaginationBuilder, hmain, if_neg hlen]
      rfl
    · intro h
      omega
    · intro _
      exact ⟨rfl, rfl⟩

/-- Witness for C1 at `listOps`, accessor `[1, 2, 3]`, `first = 2`: three
nodes come back from the `2 + 1` probe, so `hasNextPage` is true. -/
theorem first_forward_slice_spec_witness :
    ∃ res : ConnectionResult Nat,
      apolloCursorPaginationBuilder listOps [1, 2, 3] { first := some 2 } {} =
        .ok res ∧ res.pageInfo.hasNextPage = true := by
  obtain ⟨res, hok, h1, _, _⟩ :=
    first_forward_slice_spec listOps [1, 2, 3] { first := some 2 } {} 2 rfl
      (by decide) rfl
  exact ⟨res, hok, (h1 (by decide)).1⟩

/-- C2: with a positive `last = k` and no `first`, the core requests
`k + 1` nodes from `returnNodesForLast` on the ordered, cursor-bounded
accessor (the result depends on `returnNodesForLast` only through that one
call); when more than `k` nodes come back, `hasPreviousPage` is true and
the earliest returned node is dropped — under the adapter contract that at
most the requested `k + 1` nodes are returned this keeps exactly the
trailing `k`, in their given order — and when at most `k` come back all of
them become edges and `hasPreviousPage` is true exactly when an `after`
cursor was supplied (JS truthiness: absent or empty counts as not
supplied). -/
theorem last_backward_slice_spec {N NA : Type} (ops : OperatorFunctions N NA)
    (acc : NA) (args : GraphQLParams) (opts : BuilderOptions N) (k : Int)
    (hf : args.first = none) (hl : args.last = some k) (hk : 0 < k)
    (hlen : ((fetchedLast ops acc args opts k).length : Int) ≤ k + 1) :
    ∃ res : ConnectionResult N,
      apolloCursorPaginationBuilder ops acc args opts = .ok res ∧
      (k < ((fetchedLast ops acc args opts k).length : Int) →
        res.pageInfo.hasPreviousPage = true ∧
        res.edges = applyModifyEdge opts
          (ops.convertNodesToEdges ((fetchedLast ops acc args opts k).drop 1)
            args.toSlice (resolveOrderArgs args opts)) ∧
        (((fetchedLast ops acc args opts k).drop 1).length : Int) = k) ∧
      (((fetchedLast ops acc args opts k).length : Int) ≤ k →
        res.pageInfo.hasPreviousPage = jsStrTruthy args.after ∧
        res.edges = applyModifyEdge opts
          (ops.convertNodesToEdges (fetchedLast ops acc args opts k)
            args.toSlice (resolveOrderArgs args opts))) ∧
      (∀ g : NA → Int → OrderArgs N → List N,
        g (boundedAccessor ops acc args.toSlice (resolveOrderArgs args opts))
            (k + 1) (resolveOrderArgs args opts) =
          fetchedLast ops acc args opts k →
        apolloCursorPaginationBuilder { ops with returnNodesForLast := g }
            acc args opts =
          apolloCursorPaginationBuilder ops acc args opts) := by
  have hl' : args.toSlice.last = some k := by rw [toSlice_last, hl]
  have hf' : jsIntTruthy args.toSlice.first = false := by
    rw [toSlice_first, hf]; rfl
  have hmain := nodesToReturn_last_eq ops acc args.toSlice
    (resolveOrderArgs args opts) k hf' hl' hk
  rw [show ops.returnNodesForLast
      (boundedAccessor ops acc args.toSlice (resolveOrderArgs args opts))
      (k + 1) (resolveOrderArgs args opts) = fetchedLast ops acc args opts k
    from rfl] at hmain
  have hindep : ∀ g : NA → Int → OrderArgs N → List N,
      g (boundedAccessor ops acc args.toSlice (resolveOrderArgs args opts))
          (k + 1) (resolveOrderArgs args opts) =
        fetchedLast ops acc args opts k →
      apolloCursorPaginationBuilder { ops with returnNodesForLast := g }
          acc args opts =
        apolloCursorPaginationBuilder ops acc args opts := by
    intro g hg
    rw [apolloCursorPaginationBuilder, apolloCursorPaginationBuilder, hmain,
      nodesToReturn_last_eq { ops with returnNodesForLast := g }
        acc args.toSlice (resolveOrderArgs args opts) k hf' hl' hk]
    have e1 : ({ ops with returnNodesForLast := g} :
        OperatorFunctions N NA).returnNodesForLast = g := rfl
    have e2 : boundedAccessor { ops with returnNodesForLast := g }
        acc args.toSlice (resolveOrderArgs args opts) =
        boundedAccessor ops acc args.toSlice (resolveOrderArgs args opts) := rfl
    rw [e1, e2, hg]
    rfl
  by_cases hgt : k < ((fetchedLast ops acc args opts k).length : Int)
  · refine ⟨assembleConnection ops acc args opts
      ⟨(fetchedLast ops acc args opts k).drop 1, jsStrTruthy args.toSlice.before,
        true⟩, ?_, ?_, ?_, hindep⟩
    · rw [apolloCursorPaginationBuilder, hmain, if_pos hgt]
      rfl
    · intro _
      refine ⟨rfl, rfl, ?_⟩
      have := List.length_drop 1 (fetchedLast ops acc args opts k)
      omega
    · intro h
      omega
  · refine ⟨assembleConnection ops acc args opts
      ⟨fetchedLast ops acc args opts k, jsStrTruthy args.toSlice.before,
        jsStrTruthy args.toSlice.after⟩, ?_, ?_, ?_, hindep⟩
    · rw [apolloCursorPaginationBuilder, hmain, if_neg hgt]
      rfl
    · intro h
      omega
    · intro _
      exact ⟨rfl, rfl⟩

/-- Witness for C2 at `listOps`, accessor `[1, 2, 3]`, `last = 2`: the
`2 + 1` probe returns all three nodes, so `hasPreviousPage` is true and
the trailing two nodes become the page. -/
theorem last_backward_slice_spec_witness :
    ∃ res : ConnectionResult Nat,
      apolloCursorPaginationBuilder listOps [1, 2, 3] { last := some 2 } {} =
        .ok res ∧ res.pageInfo.hasPreviousPage = true := by
  obtain ⟨res, hok, h1, _, _⟩ :=
    last_backward_slice_spec listOps [1, 2, 3] { last := some 2 } {} 2 rfl rfl
      (by decide) (by decide)
  exact ⟨res, hok, (h1 (by decide)).1⟩

instance exceptDecEq {ε α : Type} [DecidableEq ε] [DecidableEq α] :
    DecidableEq (Except ε α)
  | .error a, .error b =>
    if h : a = b then .isTrue (by rw [h])
    else .isFalse (by intro he; cases he; exact h rfl)
  | .error _, .ok _ => .isFalse (by intro h; cases h)
  | .ok _, .error _ => .isFalse (by intro h; cases h)
  | .ok a, .ok b =>
    if h : a = b then .isTrue (by rw [h])
    else .isFalse (by intro he; cases he; exact h rfl)

lemma toSlice_before (args : GraphQLParams) :
    args.toSlice.before = args.before := rfl

lemma toSlice_after (args : GraphQLParams) : args.toSlice.after = args.after := rfl

lemma nodesToReturn_both_error {N NA : Type} (ops : OperatorFunctions N NA)
    (acc : NA) (ps : SliceParams) (opts : OrderArgs N)
    (hf : jsIntTruthy ps.first = true) (hl : jsIntTruthy ps.last = true) :
    nodesToReturn ops acc ps opts =
      .error "Cannot specify both `first` and `last` arguments" := by
  simp only [nodesToReturn, hf, hl, Bool.and_self, if_true]

lemma nodesToReturn_first_neg_error {N NA : Type}
    (ops : OperatorFunctions N NA) (acc : NA) (ps : SliceParams)
    (opts : OrderArgs N) (k : Int) (hf : ps.first = some k) (hk : k < 0)
    (hl : jsIntTruthy ps.last = false) :
    nodesToReturn ops acc ps opts =
      .error "`first` argument must not be less than 0" := by
  have h0 : jsIntTruthy (some k) = true := by
    simp only [jsIntTruthy, bne_iff_ne, ne_eq]
    omega
  simp only [nodesToReturn, hf, h0, hl, Bool.true_and, Bool.false_eq_true,
    if_false, if_true, Option.getD_some, hk]

lemma nodesToReturn_last_neg_error {N NA : Type}
    (ops : OperatorFunctions N NA) (acc : NA) (ps : SliceParams)
    (opts : OrderArgs N) (k : Int) (hf : jsIntTruthy ps.first = false)
    (hl : ps.last = some k) (hk : k < 0) :
    nodesToReturn ops acc ps opts =
      .error "`last` argument must not be less than 0" := by
  have h0 : jsIntTruthy (some k) = true := by
    simp only [jsIntTruthy, bne_iff_ne, ne_eq]
    omega
  simp only [nodesToReturn, hf, hl, h0, Bool.false_and, Bool.false_eq_true,
    if_false, if_true, Option.getD_some, hk]

/-- C3 (behaviour the code actually has): `first: 0` with no `last`, and
`last: 0` with no `first`, are rejected with "`first` or `last` argument
must be provided" — the JS truthiness test `if (first)` / `else if (last)`
treats a zero count as absent, so the call never reaches the `+ 1` probe
fetch and no empty page is produced. -/
theorem zero_first_or_last_rejected {N NA : Type}
    (ops : OperatorFunctions N NA) (acc : NA) (b a : Option String)
    (od ob : Option StrOrArr) (opts : BuilderOptions N) :
    apolloCursorPaginationBuilder ops acc
        { before := b, after := a, first := some 0, last := none,
          orderDirection := od, orderBy := ob } opts =
      .error "`first` or `last` argument must be provided" ∧
    apolloCursorPaginationBuilder ops acc
        { before := b, after := a, first := none, last := some 0,
          orderDirection := od, orderBy := ob } opts =
      .error "`first` or `last` argument must be provided" := by
  constructor
  · rw [apolloCursorPaginationBuilder,
      nodesToReturn_neither_eq _ _ _ _ (by rfl) (by rfl)]
    rfl
  · rw [apolloCursorPaginationBuilder,
      nodesToReturn_neither_eq _ _ _ _ (by rfl) (by rfl)]
    rfl

/-- C4 counterexample: `first: 0` together with `last: 2` is NOT rejected
(`if (first && last)` is JS-falsy because `first` is `0`); the call
proceeds as a `last`-only query and returns a page. -/
theorem both_with_zero_first_not_rejected_cx :
    apolloCursorPaginationBuilder listOps [1, 2, 3]
        { first := some 0, last := some 2 } {} =
      .ok ⟨⟨true, false, some "2", some "3"⟩, some 3,
        [⟨"2", 2⟩, ⟨"3", 3⟩]⟩ := by
  decide

/-- C4 (amended): when `first` and `last` are both supplied and both
nonzero, the call rejects with "Cannot specify both `first` and `last`
arguments"; this holds for every operator set, so no adapter fetch can
influence (or be reached by) the rejected call. -/
theorem both_truthy_first_last_rejected {N NA : Type}
    (ops : OperatorFunctions N NA) (acc : NA) (args : GraphQLParams)
    (opts : BuilderOptions N) (f l : Int) (hf : args.first = some f)
    (hl : args.last = some l) (hf0 : f ≠ 0) (hl0 : l ≠ 0) :
    apolloCursorPaginationBuilder ops acc args opts =
      .error "Cannot specify both `first` and `last` arguments" := by
  have h1 : jsIntTruthy args.toSlice.first = true := by
    rw [toSlice_first, hf]
    simp only [jsIntTruthy, bne_iff_ne, ne_eq]
    exact hf0
  have h2 : jsIntTruthy args.toSlice.last = true := by
    rw [toSlice_last, hl]
    simp only [jsIntTruthy, bne_iff_ne, ne_eq]
    exact hl0
  rw [apolloCursorPaginationBuilder, nodesToReturn_both_error _ _ _ _ h1 h2]
  rfl

/-- Witness for C4's amended theorem at `first = 1`, `last = 2`. -/
theorem both_truthy_first_last_rejected_witness :
    apolloCursorPaginationBuilder listOps [1, 2, 3]
        { first := some 1, last := some 2 } {} =
      .error "Cannot specify both `first` and `last` arguments" :=
  both_truthy_first_last_rejected listOps [1, 2, 3]
    { first := some 1, last := some 2 } {} 1 2 rfl rfl (by decide) (by decide)

/-- C5 counterexample: with an `after` cursor, `totalCount` is `3`, the
size of the original accessor `[1, 2, 3]`, while `returnTotalCount` on the
ordering-and-cursor-bounded accessor would give `2` — so the count is not
taken on the claimed pre-slice (cursor-bounded) accessor. -/
theorem totalCount_ignores_cursor_bounds_cx :
    (apolloCursorPaginationBuilder listOps [1, 2, 3]
        { after := some "1", first := some 2 } {}).map (·.totalCount) =
      .ok (some 3) ∧
    listOps.returnTotalCount
        (boundedAccessor listOps [1, 2, 3]
          (GraphQLParams.toSlice { after := some "1", first := some 2 })
          (resolveOrderArgs { after := some "1", first := some 2 }
            ({} : BuilderOptions Nat))) = 2 := by
  decide

/-- C5 (amended): unless `skipTotalCount` is set, `totalCount` is
`returnTotalCount` applied to the original accessor exactly as passed in —
before ordering, cursor bounds or limits; with `skipTotalCount`,
`totalCount` is undefined and the result does not depend on
`returnTotalCount` at all. -/
theorem totalCount_on_original_accessor {N NA : Type}
    (ops : OperatorFunctions N NA) (acc : NA) (args : GraphQLParams)
    (opts : BuilderOptions N) (r : ConnectionResult N)
    (h : apolloCursorPaginationBuilder ops acc args opts = .ok r) :
    (opts.skipTotalCount = false →
      r.totalCount = some (ops.returnTotalCount acc)) ∧
    (opts.skipTotalCount = true →
      r.totalCount = none ∧
      ∀ tc : NA → Int,
        apolloCursorPaginationBuilder { ops with returnTotalCount := tc }
            acc args opts =
          apolloCursorPaginationBuilder ops acc args opts) := by
  rw [apolloCursorPaginationBuilder] at h
  cases hnr : nodesToReturn ops acc args.toSlice (resolveOrderArgs args opts) with
  | error e =>
    rw [hnr] at h
    simp only [Except.map] at h
    exact Except.noConfusion h
  | ok s =>
    rw [hnr] at h
    simp only [Except.map, Except.ok.injEq] at h
    constructor
    · intro hskip
      rw [← h]
      simp only [assembleConnection, hskip, Bool.not_false, if_true]
    · intro hskip
      constructor
      · rw [← h]
        simp only [assembleConnection, hskip, Bool.not_true, Bool.false_eq_true,
          if_false]
      · intro tc
        rw [apolloCursorPaginationBuilder, apolloCursorPaginationBuilder]
        have e0 : nodesToReturn { ops with returnTotalCount := tc } acc
            args.toSlice (resolveOrderArgs args opts) =
            nodesToReturn ops acc args.toSlice (resolveOrderArgs args opts) := rfl
        rw [e0, hnr]
        simp only [Except.map, Except.ok.injEq]
        simp only [assembleConnection, hskip, Bool.not_true, Bool.false_eq_true,
          if_false]

/-- Witness for C5's amended theorem: `totalCount = 3` on `[1, 2, 3]`. -/
theorem totalCount_on_original_accessor_witness :
    ∃ r : ConnectionResult Nat,
      apolloCursorPaginationBuilder listOps [1, 2, 3] { first := some 1 } {} =
        .ok r ∧ r.totalCount = some 3 := by
  have h : apolloCursorPaginationBuilder listOps [1, 2, 3]
      { first := some 1 } {} =
      .ok ⟨⟨false, true, some "1", some "1"⟩, some 3, [⟨"1", 1⟩]⟩ := by decide
  obtain ⟨h1, _⟩ :=
    totalCount_on_original_accessor listOps [1, 2, 3] { first := some 1 } {} _ h
  exact ⟨_, h, (h1 rfl).trans (by decide)⟩

lemma nodesToReturn_ok_empty_flags {N NA : Type}
    (ops : OperatorFunctions N NA) (acc : NA) (ps : SliceParams)
    (opts : OrderArgs N) (r : SliceResult N)
    (h : nodesToReturn ops acc ps opts = .ok r) (hn : r.nodes = []) :
    r.hasNextPage = jsStrTruthy ps.before ∧
    r.hasPreviousPage = jsStrTruthy ps.after := by
  by_cases t1 : jsIntTruthy ps.first = true
  · by_cases t2 : jsIntTruthy ps.last = true
    · rw [nodesToReturn_both_error ops acc ps opts t1 t2] at h
      exact Except.noConfusion h
    · have t2' : jsIntTruthy ps.last = false := by simpa using t2
      obtain ⟨k, hk⟩ : ∃ k, ps.first = some k := by
        cases hf : ps.first with
        | none => rw [hf] at t1; exact absurd t1 (by simp [jsIntTruthy])
        | some k => exact ⟨k, rfl⟩
      have hkne : k ≠ 0 := by
        rw [hk] at t1
        simpa [jsIntTruthy] using t1
      rcases lt_trichotomy k 0 with hneg | hzero | hpos
      · rw [nodesToReturn_first_neg_error ops acc ps opts k hk hneg t2'] at h
        exact Except.noConfusion h
      · exact absurd hzero hkne
      · rw [nodesToReturn_first_eq ops acc ps opts k hk hpos t2'] at h
        split at h
        · next hcond =>
          injection h with h2
          rw [← h2] at hn
          have hlen := congrArg List.length hn
          simp only [SliceResult.nodes, List.length_take, List.length_nil] at hlen
          omega
        · injection h with h2
          rw [← h2]
          exact ⟨rfl, rfl⟩
  · have t1' : jsIntTruthy ps.first = false := by simpa using t1
    by_cases t2 : jsIntTruthy ps.last = true
    · obtain ⟨k, hk⟩ : ∃ k, ps.last = some k := by
        cases hf : ps.last with
        | none => rw [hf] at t2; exact absurd t2 (by simp [jsIntTruthy])
        | some k => exact ⟨k, rfl⟩
      have hkne : k ≠ 0 := by
        rw [hk] at t2
        simpa [jsIntTruthy] using t2
      rcases lt_trichotomy k 0 with hneg | hzero | hpos
      · rw [nodesToReturn_last_neg_error ops acc ps opts k t1' hk hneg] at h
        exact Except.noConfusion h
      · exact absurd hzero hkne
      · rw [nodesToReturn_last_eq ops acc ps opts k t1' hk hpos] at h
        split at h
        · next hcond =>
          injection h with h2
          rw [← h2] at hn
          have hlen := congrArg List.length hn
          simp only [SliceResult.nodes, List.length_drop, List.length_nil] at hlen
          omega
        · injection h with h2
          rw [← h2]
          exact ⟨rfl, rfl⟩
    · have t2' : jsIntTruthy ps.last = false := by simpa using t2
      rw [nodesToReturn_neither_eq ops acc ps opts t1' t2'] at h
      exact Except.noConfusion h

/-- C7 counterexample: the slice fetch returns the empty list, yet with a
`before` cursor supplied `hasNextPage` is `true`, not `false`: the flags
keep their cursor-presence initialisation on an empty page. -/
theorem empty_fetch_flags_cx :
    listOps.returnNodesForFirst
        (boundedAccessor listOps []
          (GraphQLParams.toSlice { before := some "9", first := some 2 })
          (resolveOrderArgs { before := some "9", first := some 2 }
            ({} : BuilderOptions Nat))) (2 + 1)
        (resolveOrderArgs { before := some "9", first := some 2 }
          ({} : BuilderOptions Nat)) = [] ∧
    apolloCursorPaginationBuilder listOps []
        { before := some "9", first := some 2 } {} =
      .ok ⟨⟨false, true, none, none⟩, some 0, []⟩ := by
  decide

/-- C7 (amended): when the slice fetch yields an empty node list (and the
adapter's edge conversion maps the empty list to no edges, as every
adapter's `map` does), the connection has empty edges, absent boundary
cursors, `hasNextPage` / `hasPreviousPage` equal to the (truthy) presence
of `before` / `after`, and — unless skipped — `totalCount` equal to
`returnTotalCount` of the original accessor, which is `0` on an empty
collection. -/
theorem empty_slice_connection {N NA : Type} (ops : OperatorFunctions N NA)
    (acc : NA) (args : GraphQLParams) (opts : BuilderOptions N)
    (r : SliceResult N)
    (h : nodesToReturn ops acc args.toSlice (resolveOrderArgs args opts) = .ok r)
    (hn : r.nodes = [])
    (hc : ops.convertNodesToEdges [] args.toSlice (resolveOrderArgs args opts) = []) :
    apolloCursorPaginationBuilder ops acc args opts =
      .ok
        { pageInfo :=
            { hasPreviousPage := jsStrTruthy args.after
              hasNextPage := jsStrTruthy args.before
              startCursor := none
              endCursor := none }
          totalCount :=
            if !opts.skipTotalCount then some (ops.returnTotalCount acc)
            else none
          edges := [] } := by
  obtain ⟨hN, hP⟩ :=
    nodesToReturn_ok_empty_flags ops acc args.toSlice
      (resolveOrderArgs args opts) r h hn
  have hme : applyModifyEdge opts ([] : List (Edge N)) = [] := by
    unfold applyModifyEdge
    cases opts.modifyEdgeFn <;> rfl
  rw [apolloCursorPaginationBuilder, h]
  simp only [Except.map, Except.ok.injEq, assembleConnection]
  rw [hn, hc, hme, hN, hP, toSlice_before, toSlice_after]
  rfl

/-- Witness for C7's amended theorem: the spec's own example
`paginate([], { first: 5 })` gives empty edges, absent cursors, both flags
false and `totalCount = 0`. -/
theorem empty_slice_connection_witness :
    apolloCursorPaginationBuilder listOps [] { first := some 5 } {} =
      .ok ⟨⟨false, false, none, none⟩, some 0, []⟩ :=
  (empty_slice_connection listOps [] { first := some 5 } {} ⟨[], false, false⟩
    (by decide) rfl rfl).trans (by decide)

/-! ## JS values carried by nodes

Node fields in the Knex adapter are JSON-serialisable JS values; absence
of a field is JS `undefined`, modelled as a failed lookup. -/

/-- A JS value as stored in a node's column (string / number / boolean /
null; numbers are modelled as integers). -/
inductive JsValue where
  | jstr (s : String)
  | jnum (n : Int)
  | jbool (b : Bool)
  | jnull
deriving DecidableEq, Repr

/-- JS template-literal coercion: `` `${v}` `` (strings verbatim, numbers
in decimal, `true` / `false` / `null` as words). -/
def jsToString : JsValue → String
  | .jstr s => s
  | .jnum n => toString n
  | .jbool true => "true"
  | .jbool false => "false"
  | .jnull => "null"

/-! ### `JSON.stringify` / `JSON.parse` on the value fragment nodes carry

Modelled at the character-list level with JS escaping rules; `JSON.parse`
is modelled on the grammar fragment `JSON.stringify` emits (strings,
integers, booleans, null), rejecting anything else. -/

/-- Lower-case hex digit. -/
def hexDigitChar (n : Nat) : Char :=
  if n < 10 then Char.ofNat (48 + n) else Char.ofNat (87 + n)

/-- JS string-escaping of one character (`\"`, `\\`, control shortcuts,
`\u00xx` for other control characters, else verbatim). -/
def jsonEscapeChar (c : Char) : List Char :=
  if c = '"' then ['\\', '"']
  else if c = '\\' then ['\\', '\\']
  else if c.toNat = 8 then ['\\', 'b']
  else if c.toNat = 9 then ['\\', 't']
  else if c.toNat = 10 then ['\\', 'n']
  else if c.toNat = 12 then ['\\', 'f']
  else if c.toNat = 13 then ['\\', 'r']
  else if c.toNat < 32 then
    ['\\', 'u', '0', '0', hexDigitChar (c.toNat / 16),
      hexDigitChar (c.toNat % 16)]
  else [c]

/-- Escape a whole character list. -/
def jsonEscapeList : List Char → List Char
  | [] => []
  | c :: cs => jsonEscapeChar c ++ jsonEscapeList cs

/-- Decimal digits of a positive natural, least significant first. -/
def natDigitsRev (n : Nat) : List Char :=
  if n = 0 then [] else Char.ofNat (48 + n % 10) :: natDigitsRev (n / 10)
termination_by n
decreasing_by omega

/-- Decimal notation of a natural. -/
def natToChars (n : Nat) : List Char :=
  if n = 0 then ['0'] else (natDigitsRev n).reverse

/-- JS decimal notation of an integer. -/
def intToChars (n : Int) : List Char :=
  if n < 0 then '-' :: natToChars n.natAbs else natToChars n.toNat

/-- `JSON.stringify` of a node value. -/
def jsonStringify : JsValue → List Char
  | .jstr s => '"' :: jsonEscapeList s.data ++ ['"']
  | .jnum n => intToChars n
  | .jbool true => ['t', 'r', 'u', 'e']
  | .jbool false => ['f', 'a', 'l', 's', 'e']
  | .jnull => ['n', 'u', 'l', 'l']

/-- ASCII decimal digit test. -/
def isDigitChar (c : Char) : Bool := 48 ≤ c.toNat && c.toNat ≤ 57

/-- Accumulate the value of a digit run; `none` on a non-digit. -/
def digitsValAux (acc : Nat) : List Char → Option Nat
  | [] => some acc
  | c :: rest =>
    if isDigitChar c then digitsValAux (acc * 10 + (c.toNat - 48)) rest
    else none

/-- Value of a non-empty all-digit character list. -/
def parseDigits (l : List Char) : Option Nat :=
  if l = [] then none else digitsValAux 0 l

/-- Short escape sequences accepted after a backslash. -/
def unescapeChar (e : Char) : Option Char :=
  if e = '"' then some '"'
  else if e = '\\' then some '\\'
  else if e = '/' then some '/'
  else if e = 'b' then some (Char.ofNat 8)
  else if e = 't' then some (Char.ofNat 9)
  else if e = 'n' then some (Char.ofNat 10)
  else if e = 'f' then some (Char.ofNat 12)
  else if e = 'r' then some (Char.ofNat 13)
  else none

/-- Hex digit value. -/
def hexVal (c : Char) : Option Nat :=
  if 48 ≤ c.toNat ∧ c.toNat ≤ 57 then some (c.toNat - 48)
  else if 97 ≤ c.toNat ∧ c.toNat ≤ 102 then some (c.toNat - 87)
  else if 65 ≤ c.toNat ∧ c.toNat ≤ 70 then some (c.toNat - 55)
  else none

/-- Parse a JSON string body up to the closing quote; returns the decoded
characters and the remainder after the quote. -/
def parseStrBody : List Char → Option (List Char × List Char)
  | [] => none
  | c :: rest =>
    if c = '"' then some ([], rest)
    else if c = '\\' then
      if rest.length < 1 then none
      else
        let e := rest.getD 0 ' '
        if e = 'u' then
          if rest.length < 5 then none
          else
            (hexVal (rest.getD 1 ' ')).bind fun h1 =>
              (hexVal (rest.getD 2 ' ')).bind fun h2 =>
                (hexVal (rest.getD 3 ' ')).bind fun h3 =>
                  (hexVal (rest.getD 4 ' ')).bind fun h4 =>
                    (parseStrBody (rest.drop 5)).map fun p =>
                      (Char.ofNat (h1 * 4096 + h2 * 256 + h3 * 16 + h4) :: p.1,
                        p.2)
        else
          (unescapeChar e).bind fun ch =>
            (parseStrBody (rest.drop 1)).map fun p => (ch :: p.1, p.2)
    else (parseStrBody rest).map fun p => (c :: p.1, p.2)
termination_by l => l.length
decreasing_by
  all_goals simp only [List.length_cons, List.length_drop]
  all_goals omega

/-- `JSON.parse` on the fragment `JSON.stringify` emits. -/
def jsonParse (l : List Char) : Option JsValue :=
  match l with
  | [] => none
  | c :: rest =>
    if c = '"' then
      (parseStrBody rest).bind fun p =>
        if p.2 = [] then some (.jstr (String.mk p.1)) else none
    else if c = 't' then
      if rest = ['r', 'u', 'e'] then some (.jbool true) else none
    else if c = 'f' then
      if rest = ['a', 'l', 's', 'e'] then some (.jbool false) else none
    else if c = 'n' then
      if rest = ['u', 'l', 'l'] then some .jnull else none
    else if c = '-' then
      (parseDigits rest).map fun (k : Nat) => .jnum (-(k : Int))
    else (parseDigits l).map fun (k : Nat) => .jnum (k : Int)

namespace Knex

/-- A Knex row: an association list from column names to values; a column
absent from the list reads as JS `undefined`. -/
abbrev KNode : Type := List (String × JsValue)

/-- The direction value actually handed to Knex `orderBy`: a string, a
whole array (when TS passes the unsplit union through), or JS
`undefined` (out-of-range index). -/
inductive DirArg where
  | strD (s : String)
  | listD (l : List String)
  | undefD
deriving DecidableEq, Repr

/-- The observable effect of a Knex query builder for ordering claims: the
accumulated `orderBy` list, in call order. -/
structure KnexQuery where
  orders : List (String × DirArg)
deriving DecidableEq, Repr

/-- `.clone()` of a query builder. -/
def KnexQuery.clone (q : KnexQuery) : KnexQuery := q

/-- `.orderBy(column, direction)` appends one sort key. -/
def KnexQuery.orderBy (q : KnexQuery) (col : String) (dir : DirArg) :
    KnexQuery :=
  ⟨q.orders ++ [(col, dir)]⟩

/-- `operateOverScalarOrArray` of the Knex connector: iterate an operation
over a scalar (index `null`) or over an array (with indices), then
optionally post-process with the `isArray` flag. -/
def operateOverScalarOrArray {R : Type} (initialValue : R)
    (scalarOrArray : StrOrArr) (operation : String → Option Nat → R → R)
    (operateResult : Option (R → Bool → R) := none) : R :=
  let result := match scalarOrArray with
    | .arr l =>
      l.enum.foldl (fun r p => operation p.2 (some p.1) r) initialValue
    | .scalar s => operation s none initialValue
  match operateResult with
  | some f =>
    f result (match scalarOrArray with | .arr _ => true | .scalar _ => false)
  | none => result

/-- `formatColumnIfAvailable`. -/
def formatColumnIfAvailable (column : String)
    (formatColumnFn : Option (String → Bool → String)) (isRaw : Bool := true) :
    String :=
  match formatColumnFn with
  | some f => f column isRaw
  | none => column

/-- What TS passes as direction when it hands the whole `ascOrDesc` union
value to `orderBy` (the `else` branches of the connector). -/
def dirArgOfWhole : StrOrArr → DirArg
  | .scalar s => .strD s
  | .arr l => .listD l

/-- JS `ascOrDesc[0]`: first array element, or first character of a scalar
string (as a 1-character string), or `undefined`. -/
def jsIndex0 : StrOrArr → DirArg
  | .arr [] => .undefD
  | .arr (d :: _) => .strD d
  | .scalar s =>
    match s.data with
    | [] => .undefD
    | c :: _ => .strD (String.mk [c])

/-- `applyOrderBy` of the Knex connector: one `orderBy` per user-chosen
column (direction looked up per index when both sides are arrays), then a
final `orderBy` on the primary key. -/
def applyOrderBy (nodesAccessor : KnexQuery) (opts : OrderArgs KNode) :
    KnexQuery :=
  let initialValue := nodesAccessor.clone
  operateOverScalarOrArray initialValue opts.orderColumn
    (fun orderByCol index prev =>
      match opts.ascOrDesc, index with
      | .arr l, some i =>
        prev.orderBy (formatColumnIfAvailable orderByCol opts.formatColumnFn false)
          (if i < l.length then .strD (l.getD i "") else .undefD)
      | aod, _ =>
        prev.orderBy (formatColumnIfAvailable orderByCol opts.formatColumnFn false)
          (dirArgOfWhole aod))
    (some (fun prev isArray =>
      if isArray then
        prev.orderBy
          (formatColumnIfAvailable opts.primaryKey opts.formatColumnFn false)
          (jsIndex0 opts.ascOrDesc)
      else
        prev.orderBy
          (formatColumnIfAvailable opts.primaryKey opts.formatColumnFn false)
          (dirArgOfWhole opts.ascOrDesc)))

/-- Specification-side description of the sort pairs `applyOrderBy` adds
for the user-chosen columns (written from the spec's resolution rules, for
comparison with the connector). -/
def specUserSortPairs (orderColumn ascOrDesc : StrOrArr)
    (fmt : Option (String → Bool → String)) : List (String × DirArg) :=
  match orderColumn with
  | .scalar c => [(formatColumnIfAvailable c fmt false, dirArgOfWhole ascOrDesc)]
  | .arr cols =>
    cols.enum.map (fun p =>
      (formatColumnIfAvailable p.2 fmt false,
        match ascOrDesc with
        | .arr l => if p.1 < l.length then .strD (l.getD p.1 "") else .undefD
        | .scalar s => .strD s))

/-- Specification-side direction of the appended primary-key tie-break. -/
def specPkDir (orderColumn ascOrDesc : StrOrArr) : DirArg :=
  match orderColumn with
  | .arr _ => jsIndex0 ascOrDesc
  | .scalar _ => dirArgOfWhole ascOrDesc

lemma orders_orderBy (q : KnexQuery) (c : String) (d : DirArg) :
    (q.orderBy c d).orders = q.orders ++ [(c, d)] := rfl

lemma foldl_orderBy_orders {α : Type} (xs : List α) (q : KnexQuery)
    (fs : α → String) (ds : α → DirArg) :
    (xs.foldl (fun r x => r.orderBy (fs x) (ds x)) q).orders =
      q.orders ++ xs.map (fun x => (fs x, ds x)) := by
  induction xs generalizing q with
  | nil => simp
  | cons x xs ih =>
    rw [List.foldl_cons, ih]
    simp [KnexQuery.orderBy]

end Knex

/-- C6: every `applyOrderBy` invocation of the Knex adapter yields the
query's prior sort keys, then one sort key per user-chosen column, with
the (formatted) primary key appended as the final sort key — so the
imposed ordering always ends in the primary-key tie-break; and when the
builder resolves arguments with `orderBy` unspecified, the ordering added
consists solely of the primary key ascending. -/
theorem applyOrderBy_pk_tiebreak (q : Knex.KnexQuery)
    (opts : OrderArgs Knex.KNode) :
    ((Knex.applyOrderBy q opts).orders =
      q.orders ++
        Knex.specUserSortPairs opts.orderColumn opts.ascOrDesc opts.formatColumnFn ++
        [(Knex.formatColumnIfAvailable opts.primaryKey opts.formatColumnFn false,
          Knex.specPkDir opts.orderColumn opts.ascOrDesc)]) ∧
    ((Knex.applyOrderBy q opts).orders.getLast?.map Prod.fst =
      some (Knex.formatColumnIfAvailable opts.primaryKey opts.formatColumnFn false)) ∧
    (∀ (b a : Option String) (f l : Option Int)
        (bopts : BuilderOptions Knex.KNode),
      (Knex.applyOrderBy q (resolveOrderArgs
          { before := b, after := a, first := f, last := l,
            orderDirection := none, orderBy := none } bopts)).orders =
        q.orders ++
          [(Knex.formatColumnIfAvailable (bopts.primaryKey.getD "id")
              bopts.formatColumnFn false, .strD "asc"),
            (Knex.formatColumnIfAvailable (bopts.primaryKey.getD "id")
              bopts.formatColumnFn false, .strD "asc")]) := by
  have hmain : (Knex.applyOrderBy q opts).orders =
      q.orders ++
        Knex.specUserSortPairs opts.orderColumn opts.ascOrDesc opts.formatColumnFn ++
        [(Knex.formatColumnIfAvailable opts.primaryKey opts.formatColumnFn false,
          Knex.specPkDir opts.orderColumn opts.ascOrDesc)] := by
    cases hoc : opts.orderColumn with
    | scalar c =>
      cases haod : opts.ascOrDesc with
      | scalar s =>
        simp [Knex.applyOrderBy, Knex.operateOverScalarOrArray, hoc, haod,
          Knex.KnexQuery.orderBy, Knex.KnexQuery.clone, Knex.specUserSortPairs,
          Knex.specPkDir]
      | arr l =>
        simp [Knex.applyOrderBy, Knex.operateOverScalarOrArray, hoc, haod,
          Knex.KnexQuery.orderBy, Knex.KnexQuery.clone, Knex.specUserSortPairs,
          Knex.specPkDir]
    | arr cols =>
      cases haod : opts.ascOrDesc with
      | scalar s =>
        simp only [Knex.applyOrderBy, Knex.operateOverScalarOrArray, hoc, haod,
          Knex.KnexQuery.clone, Knex.specUserSortPairs, Knex.specPkDir,
          Knex.dirArgOfWhole, if_true, Knex.orders_orderBy]
        rw [Knex.foldl_orderBy_orders]
      | arr l =>
        simp only [Knex.applyOrderBy, Knex.operateOverScalarOrArray, hoc, haod,
          Knex.KnexQuery.clone, Knex.specUserSortPairs, Knex.specPkDir,
          if_true, Knex.orders_orderBy]
        rw [Knex.foldl_orderBy_orders]
  refine ⟨hmain, ?_, ?_⟩
  · rw [hmain]
    simp [List.getLast?_concat]
  · intro b a f l bopts
    simp [Knex.applyOrderBy, Knex.operateOverScalarOrArray, resolveOrderArgs,
      Knex.KnexQuery.orderBy, Knex.KnexQuery.clone, Knex.dirArgOfWhole]

/-! ## The cursor codec: `Buffer.from(str).toString('base64')` and back

`encode` UTF-8-encodes the string and base64-encodes the bytes; `decode`
inverts both steps (Node `Buffer` semantics, RFC 4648 alphabet with `=`
padding).  Bytes are `Nat`s below 256. -/

/-- The base64 alphabet character for a sextet. -/
def b64Char (n : Nat) : Char :=
  if n < 26 then Char.ofNat (65 + n)
  else if n < 52 then Char.ofNat (71 + n)
  else if n < 62 then Char.ofNat (n - 4)
  else if n = 62 then '+'
  else '/'

/-- The sextet of a base64 alphabet character (0 for foreign chars). -/
def b64Index (c : Char) : Nat :=
  if 65 ≤ c.toNat ∧ c.toNat ≤ 90 then c.toNat - 65
  else if 97 ≤ c.toNat ∧ c.toNat ≤ 122 then c.toNat - 71
  else if 48 ≤ c.toNat ∧ c.toNat ≤ 57 then c.toNat + 4
  else if c = '+' then 62
  else if c = '/' then 63
  else 0

lemma b64Index_b64Char (i : Fin 64) : b64Index (b64Char i.val) = i.val := by
  revert i
  decide

lemma b64Char_ne_pad (i : Fin 64) : b64Char i.val ≠ '=' := by
  revert i
  decide

/-- Base64-encode a byte list, three bytes to four chars, `=`-padded. -/
def b64EncodeBytes : List Nat → List Char
  | [] => []
  | [b1] => [b64Char (b1 / 4), b64Char (b1 % 4 * 16), '=', '=']
  | [b1, b2] =>
    [b64Char (b1 / 4), b64Char (b1 % 4 * 16 + b2 / 16),
      b64Char (b2 % 16 * 4), '=']
  | b1 :: b2 :: b3 :: rest =>
    b64Char (b1 / 4) :: b64Char (b1 % 4 * 16 + b2 / 16) ::
      b64Char (b2 % 16 * 4 + b3 / 64) :: b64Char (b3 % 64) ::
      b64EncodeBytes rest

/-- Base64-decode four chars to three bytes, with `=`-padding cut-off. -/
def b64DecodeChars : List Char → List Nat
  | c1 :: c2 :: c3 :: c4 :: rest =>
    if c3 = '=' then [b64Index c1 * 4 + b64Index c2 / 16]
    else if c4 = '=' then
      [b64Index c1 * 4 + b64Index c2 / 16,
        b64Index c2 % 16 * 16 + b64Index c3 / 4]
    else
      (b64Index c1 * 4 + b64Index c2 / 16) ::
        (b64Index c2 % 16 * 16 + b64Index c3 / 4) ::
        (b64Index c3 % 4 * 64 + b64Index c4) :: b64DecodeChars rest
  | _ => []

lemma b64_roundtrip :
    ∀ l : List Nat, (∀ b ∈ l, b < 256) →
      b64DecodeChars (b64EncodeBytes l) = l
  | [], _ => rfl
  | [b1], h => by
    have hb1 : b1 < 256 := h b1 (by simp)
    have e1 : b64Index (b64Char (b1 / 4)) = b1 / 4 :=
      b64Index_b64Char ⟨b1 / 4, by omega⟩
    have e2 : b64Index (b64Char (b1 % 4 * 16)) = b1 % 4 * 16 :=
      b64Index_b64Char ⟨b1 % 4 * 16, by omega⟩
    show b64DecodeChars [b64Char (b1 / 4), b64Char (b1 % 4 * 16), '=', '='] =
      [b1]
    simp only [b64DecodeChars, if_pos, e1, e2, List.cons.injEq, and_true]
    omega
  | [b1, b2], h => by
    have hb1 : b1 < 256 := h b1 (by simp)
    have hb2 : b2 < 256 := h b2 (by simp)
    have e1 : b64Index (b64Char (b1 / 4)) = b1 / 4 :=
      b64Index_b64Char ⟨b1 / 4, by omega⟩
    have e2 : b64Index (b64Char (b1 % 4 * 16 + b2 / 16)) =
        b1 % 4 * 16 + b2 / 16 :=
      b64Index_b64Char ⟨b1 % 4 * 16 + b2 / 16, by omega⟩
    have e3 : b64Index (b64Char (b2 % 16 * 4)) = b2 % 16 * 4 :=
      b64Index_b64Char ⟨b2 % 16 * 4, by omega⟩
    have n3 : b64Char (b2 % 16 * 4) ≠ '=' :=
      b64Char_ne_pad ⟨b2 % 16 * 4, by omega⟩
    show b64DecodeChars [b64Char (b1 / 4), b64Char (b1 % 4 * 16 + b2 / 16),
      b64Char (b2 % 16 * 4), '='] = [b1, b2]
    simp only [b64DecodeChars, if_neg n3, if_pos, e1, e2, e3,
      List.cons.injEq, and_true]
    constructor
    · omega
    · omega
  | b1 :: b2 :: b3 :: rest, h => by
    have hb1 : b1 < 256 := h b1 (by simp)
    have hb2 : b2 < 256 := h b2 (by simp)
    have hb3 : b3 < 256 := h b3 (by simp)
    have ih := b64_roundtrip rest (fun b hb => h b (by simp [hb]))
    have e1 : b64Index (b64Char (b1 / 4)) = b1 / 4 :=
      b64Index_b64Char ⟨b1 / 4, by omega⟩
    have e2 : b64Index (b64Char (b1 % 4 * 16 + b2 / 16)) =
        b1 % 4 * 16 + b2 / 16 :=
      b64Index_b64Char ⟨b1 % 4 * 16 + b2 / 16, by omega⟩
    have e3 : b64Index (b64Char (b2 % 16 * 4 + b3 / 64)) =
        b2 % 16 * 4 + b3 / 64 :=
      b64Index_b64Char ⟨b2 % 16 * 4 + b3 / 64, by omega⟩
    have e4 : b64Index (b64Char (b3 % 64)) = b3 % 64 :=
      b64Index_b64Char ⟨b3 % 64, by omega⟩
    have n3 : b64Char (b2 % 16 * 4 + b3 / 64) ≠ '=' :=
      b64Char_ne_pad ⟨b2 % 16 * 4 + b3 / 64, by omega⟩
    have n4 : b64Char (b3 % 64) ≠ '=' := b64Char_ne_pad ⟨b3 % 64, by omega⟩
    show b64DecodeChars (b64Char (b1 / 4) :: b64Char (b1 % 4 * 16 + b2 / 16) ::
      b64Char (b2 % 16 * 4 + b3 / 64) :: b64Char (b3 % 64) ::
      b64EncodeBytes rest) = b1 :: b2 :: b3 :: rest
    simp only [b64DecodeChars, if_neg n3, if_neg n4, e1, e2, e3, e4, ih,
      List.cons.injEq]
    exact ⟨by omega, by omega, by omega, trivial⟩

/-- UTF-8 bytes of one Unicode scalar value. -/
def utf8EncodeChar (c : Char) : List Nat :=
  let n := c.toNat
  if n < 128 then [n]
  else if n < 2048 then [192 + n / 64, 128 + n % 64]
  else if n < 65536 then [224 + n / 4096, 128 + n / 64 % 64, 128 + n % 64]
  else
    [240 + n / 262144, 128 + n / 4096 % 64, 128 + n / 64 % 64, 128 + n % 64]

/-- UTF-8 bytes of a character list. -/
def utf8EncodeList : List Char → List Nat
  | [] => []
  | c :: cs => utf8EncodeChar c ++ utf8EncodeList cs

/-- UTF-8 decoding of a byte list (lead-byte driven; truncated sequences
decode to nothing, which the round-trip never hits). -/
def utf8DecodeList : List Nat → List Char
  | [] => []
  | b :: rest =>
    if b < 128 then Char.ofNat b :: utf8DecodeList rest
    else if b < 224 then
      if rest.length < 1 then []
      else
        Char.ofNat ((b - 192) * 64 + (rest.getD 0 0 - 128)) ::
          utf8DecodeList (rest.drop 1)
    else if b < 240 then
      if rest.length < 2 then []
      else
        Char.ofNat ((b - 224) * 4096 + (rest.getD 0 0 - 128) * 64 +
            (rest.getD 1 0 - 128)) ::
          utf8DecodeList (rest.drop 2)
    else
      if rest.length < 3 then []
      else
        Char.ofNat ((b - 240) * 262144 + (rest.getD 0 0 - 128) * 4096 +
            (rest.getD 1 0 - 128) * 64 + (rest.getD 2 0 - 128)) ::
          utf8DecodeList (rest.drop 3)
termination_by l => l.length
decreasing_by
  all_goals simp only [List.length_cons, List.length_drop]
  all_goals omega

lemma char_toNat_lt (c : Char) : c.toNat < 1114112 := by
  rcases c.valid with h | ⟨h1, h2⟩
  · exact Nat.lt_trans h (by norm_num)
  · exact h2

lemma utf8EncodeChar_lt (c : Char) : ∀ b ∈ utf8EncodeChar c, b < 256 := by
  have hval := char_toNat_lt c
  intro b hb
  simp only [utf8EncodeChar] at hb
  split_ifs at hb with h1 h2 h3
  · simp at hb
    omega
  · simp at hb
    rcases hb with hb | hb <;> omega
  · simp at hb
    rcases hb with hb | hb | hb <;> omega
  · simp at hb
    rcases hb with hb | hb | hb | hb <;> omega

lemma utf8EncodeList_lt (s : List Char) :
    ∀ b ∈ utf8EncodeList s, b < 256 := by
  induction s with
  | nil => simp [utf8EncodeList]
  | cons c cs ih =>
    intro b hb
    simp only [utf8EncodeList, List.mem_append] at hb
    rcases hb with hb | hb
    · exact utf8EncodeChar_lt c b hb
    · exact ih b hb

lemma utf8_decode_encode_cons (c : Char) (rest : List Nat) :
    utf8DecodeList (utf8EncodeChar c ++ rest) = c :: utf8DecodeList rest := by
  have hval := char_toNat_lt c
  by_cases h1 : c.toNat < 128
  · rw [show utf8EncodeChar c = [c.toNat] from by
      simp [utf8EncodeChar, h1]]
    simp only [List.cons_append, List.nil_append, utf8DecodeList]
    rw [if_pos h1, Char.ofNat_toNat]
  · by_cases h2 : c.toNat < 2048
    · rw [show utf8EncodeChar c = [192 + c.toNat / 64, 128 + c.toNat % 64]
        from by simp [utf8EncodeChar, h1, h2]]
      simp only [List.cons_append, List.nil_append, utf8DecodeList]
      rw [if_neg (by omega), if_pos (by omega)]
      show Char.ofNat ((192 + c.toNat / 64 - 192) * 64 +
        (128 + c.toNat % 64 - 128)) :: utf8DecodeList rest =
        c :: utf8DecodeList rest
      rw [show (192 + c.toNat / 64 - 192) * 64 + (128 + c.toNat % 64 - 128) =
        c.toNat from by omega, Char.ofNat_toNat]
    · by_cases h3 : c.toNat < 65536
      · rw [show utf8EncodeChar c = [224 + c.toNat / 4096,
          128 + c.toNat / 64 % 64, 128 + c.toNat % 64]
          from by simp [utf8EncodeChar, h1, h2, h3]]
        simp only [List.cons_append, List.nil_append, utf8DecodeList]
        rw [if_neg (by omega), if_neg (by omega), if_pos (by omega)]
        show Char.ofNat ((224 + c.toNat / 4096 - 224) * 4096 +
          (128 + c.toNat / 64 % 64 - 128) * 64 + (128 + c.toNat % 64 - 128)) ::
          utf8DecodeList rest = c :: utf8DecodeList rest
        rw [show (224 + c.toNat / 4096 - 224) * 4096 +
          (128 + c.toNat / 64 % 64 - 128) * 64 + (128 + c.toNat % 64 - 128) =
          c.toNat from by omega, Char.ofNat_toNat]
      · rw [show utf8EncodeChar c = [240 + c.toNat / 262144,
          128 + c.toNat / 4096 % 64, 128 + c.toNat / 64 % 64,
          128 + c.toNat % 64]
          from by simp [utf8EncodeChar, h1, h2, h3]]
        simp only [List.cons_append, List.nil_append, utf8DecodeList]
        rw [if_neg (by omega), if_neg (by omega), if_neg (by omega)]
        show Char.ofNat ((240 + c.toNat / 262144 - 240) * 262144 +
          (128 + c.toNat / 4096 % 64 - 128) * 4096 +
          (128 + c.toNat / 64 % 64 - 128) * 64 + (128 + c.toNat % 64 - 128)) ::
          utf8DecodeList rest = c :: utf8DecodeList rest
        rw [show (240 + c.toNat / 262144 - 240) * 262144 +
          (128 + c.toNat / 4096 % 64 - 128) * 4096 +
          (128 + c.toNat / 64 % 64 - 128) * 64 + (128 + c.toNat % 64 - 128) =
          c.toNat from by omega, Char.ofNat_toNat]

lemma utf8_roundtrip (s : List Char) :
    utf8DecodeList (utf8EncodeList s) = s := by
  induction s with
  | nil => simp only [utf8EncodeList, utf8DecodeList]
  | cons c cs ih =>
    rw [utf8EncodeList, utf8_decode_encode_cons, ih]

/-- `encode` of the builder: `Buffer.from(str).toString('base64')`. -/
def encode (str : String) : String :=
  String.mk (b64EncodeBytes (utf8EncodeList str.data))

/-- `decode` of the builder: `Buffer.from(str, 'base64').toString()`. -/
def decode (str : String) : String :=
  String.mk (utf8DecodeList (b64DecodeChars str.data))

lemma decode_encode_str (s : String) : decode (encode s) = s := by
  unfold decode encode
  rw [show (String.mk (b64EncodeBytes (utf8EncodeList s.data))).data =
    b64EncodeBytes (utf8EncodeList s.data) from rfl]
  rw [b64_roundtrip _ (utf8EncodeList_lt s.data), utf8_roundtrip]

/-- C8: the cursor codec round-trips — for every string `x`,
`decode(encode(x)) = x`, where `encode` is the builder's base64 encoding
(UTF-8 bytes, RFC 4648 alphabet with padding) and `decode` its inverse. -/
theorem codec_round_trip (x : String) : decode (encode x) = x :=
  decode_encode_str x

/-! ### JSON round-trip lemmas -/

lemma hexVal_hexDigitChar (m : Nat) (h : m < 16) :
    hexVal (hexDigitChar m) = some m := by
  interval_cases m <;> decide

lemma digitChar_toNat (m : Nat) (h : m < 10) :
    (Char.ofNat (48 + m)).toNat = 48 + m := by
  interval_cases m <;> decide

lemma natDigitsRev_mem_digits (n : Nat) :
    ∀ c ∈ natDigitsRev n, 48 ≤ c.toNat ∧ c.toNat ≤ 57 := by
  induction n using Nat.strong_induction_on with
  | _ n ih =>
    intro c hc
    by_cases h0 : n = 0
    · rw [natDigitsRev, if_pos h0] at hc
      simp at hc
    · rw [natDigitsRev, if_neg h0] at hc
      rcases List.mem_cons.mp hc with hcc | hcc
      · subst hcc
        have hd := digitChar_toNat (n % 10) (by omega)
        constructor <;> omega
      · exact ih (n / 10) (by omega) c hcc

lemma natDigitsRev_foldr (n : Nat) :
    (natDigitsRev n).foldr (fun c a => a * 10 + (c.toNat - 48)) 0 = n := by
  induction n using Nat.strong_induction_on with
  | _ n ih =>
    by_cases h0 : n = 0
    · subst h0
      rw [natDigitsRev]
      simp
    · rw [natDigitsRev, if_neg h0]
      simp only [List.foldr_cons]
      rw [ih (n / 10) (by omega)]
      have hd := digitChar_toNat (n % 10) (by omega)
      omega

lemma digitsValAux_all (l : List Char)
    (h : ∀ c ∈ l, 48 ≤ c.toNat ∧ c.toNat ≤ 57) (acc : Nat) :
    digitsValAux acc l =
      some (l.foldl (fun a c => a * 10 + (c.toNat - 48)) acc) := by
  induction l generalizing acc with
  | nil => rfl
  | cons c cs ih =>
    have hc := h c (by simp)
    rw [digitsValAux, if_pos (by
      simp only [isDigitChar, Bool.and_eq_true, decide_eq_true_eq]
      omega : isDigitChar c = true)]
    rw [List.foldl_cons]
    exact ih (fun x hx => h x (by simp [hx])) _

lemma parseDigits_natToChars (n : Nat) :
    parseDigits (natToChars n) = some n := by
  by_cases h0 : n = 0
  · subst h0
    decide
  · rw [natToChars, if_neg h0]
    have hne : natDigitsRev n ≠ [] := by
      rw [natDigitsRev, if_neg h0]
      simp
    rw [parseDigits, if_neg (by simpa using hne)]
    rw [digitsValAux_all _
      (fun c hc => natDigitsRev_mem_digits n c (List.mem_reverse.mp hc)) 0]
    rw [List.foldl_reverse]
    rw [natDigitsRev_foldr]

lemma parseStrBody_escape :
    ∀ (l rem : List Char),
      parseStrBody (jsonEscapeList l ++ '"' :: rem) = some (l, rem)
  | [], rem => by
    show parseStrBody ('"' :: rem) = some ([], rem)
    rw [parseStrBody, if_pos rfl]
  | c :: cs, rem => by
    have ih := parseStrBody_escape cs rem
    simp only [jsonEscapeList, List.append_assoc]
    by_cases h1 : c = '"'
    · subst h1
      rw [show jsonEscapeChar '"' = ['\\', '"'] from by decide]
      simp only [List.cons_append, List.nil_append]
      rw [parseStrBody, if_neg (by decide), if_pos rfl, if_neg (by simp)]
      simp only [List.getD_cons_zero]
      rw [if_neg (by decide)]
      rw [show unescapeChar '"' = some '"' from by decide]
      simp only [Option.some_bind, List.drop_succ_cons, List.drop_zero, ih,
        Option.map_some']
    · by_cases h2 : c = '\\'
      · subst h2
        rw [show jsonEscapeChar '\\' = ['\\', '\\'] from by decide]
        simp only [List.cons_append, List.nil_append]
        rw [parseStrBody, if_neg (by decide), if_pos rfl, if_neg (by simp)]
        simp only [List.getD_cons_zero]
        rw [if_neg (by decide)]
        rw [show unescapeChar '\\' = some '\\' from by decide]
        simp only [Option.some_bind, List.drop_succ_cons, List.drop_zero, ih,
          Option.map_some']
      · by_cases h3 : c.toNat = 8
        · have hc : c = Char.ofNat 8 := by
            rw [← h3, Char.ofNat_toNat]
          subst hc
          rw [show jsonEscapeChar (Char.ofNat 8) = ['\\', 'b'] from by decide]
          simp only [List.cons_append, List.nil_append]
          rw [parseStrBody, if_neg (by decide), if_pos rfl, if_neg (by simp)]
          simp only [List.getD_cons_zero]
          rw [if_neg (by decide)]
          rw [show unescapeChar 'b' = some (Char.ofNat 8) from by decide]
          simp only [Option.some_bind, List.drop_succ_cons, List.drop_zero, ih,
            Option.map_some']
        · by_cases h4 : c.toNat = 9
          · have hc : c = Char.ofNat 9 := by
              rw [← h4, Char.ofNat_toNat]
            subst hc
            rw [show jsonEscapeChar (Char.ofNat 9) = ['\\', 't'] from by decide]
            simp only [List.cons_append, List.nil_append]
            rw [parseStrBody, if_neg (by decide), if_pos rfl, if_neg (by simp)]
            simp only [List.getD_cons_zero]
            rw [if_neg (by decide)]
            rw [show unescapeChar 't' = some (Char.ofNat 9) from by decide]
            simp only [Option.some_bind, List.drop_succ_cons, List.drop_zero,
              ih, Option.map_some']
          · by_cases h5 : c.toNat = 10
            · have hc : c = Char.ofNat 10 := by
                rw [← h5, Char.ofNat_toNat]
              subst hc
              rw [show jsonEscapeChar (Char.ofNat 10) = ['\\', 'n'] from by
                decide]
              simp only [List.cons_append, List.nil_append]
              rw [parseStrBody, if_neg (by decide), if_pos rfl,
                if_neg (by simp)]
              simp only [List.getD_cons_zero]
              rw [if_neg (by decide)]
              rw [show unescapeChar 'n' = some (Char.ofNat 10) from by decide]
              simp only [Option.some_bind, List.drop_succ_cons, List.drop_zero,
                ih, Option.map_some']
            · by_cases h6 : c.toNat = 12
              · have hc : c = Char.ofNat 12 := by
                  rw [← h6, Char.ofNat_toNat]
                subst hc
                rw [show jsonEscapeChar (Char.ofNat 12) = ['\\', 'f'] from by
                  decide]
                simp only [List.cons_append, List.nil_append]
                rw [parseStrBody, if_neg (by decide), if_pos rfl,
                  if_neg (by simp)]
                simp only [List.getD_cons_zero]
                rw [if_neg (by decide)]
                rw [show unescapeChar 'f' = some (Char.ofNat 12) from by
                  decide]
                simp only [Option.some_bind, List.drop_succ_cons,
                  List.drop_zero, ih, Option.map_some']
              · by_cases h7 : c.toNat = 13
                · have hc : c = Char.ofNat 13 := by
                    rw [← h7, Char.ofNat_toNat]
                  subst hc
                  rw [show jsonEscapeChar (Char.ofNat 13) = ['\\', 'r'] from by
                    decide]
                  simp only [List.cons_append, List.nil_append]
                  rw [parseStrBody, if_neg (by decide), if_pos rfl,
                    if_neg (by simp)]
                  simp only [List.getD_cons_zero]
                  rw [if_neg (by decide)]
                  rw [show unescapeChar 'r' = some (Char.ofNat 13) from by
                    decide]
                  simp only [Option.some_bind, List.drop_succ_cons,
                    List.drop_zero, ih, Option.map_some']
                · by_cases h8 : c.toNat < 32
                  · rw [show jsonEscapeChar c = ['\\', 'u', '0', '0',
                      hexDigitChar (c.toNat / 16), hexDigitChar (c.toNat % 16)]
                      from by
                        simp [jsonEscapeChar, h1, h2, h3, h4, h5, h6, h7, h8]]
                    simp only [List.cons_append, List.nil_append]
                    rw [parseStrBody, if_neg (by decide), if_pos rfl,
                      if_neg (by simp)]
                    simp only [List.getD_cons_zero, List.getD_cons_succ]
                    simp only [if_true]
                    rw [if_neg (by simp)]
                    rw [show hexVal '0' = some 0 from by decide]
                    rw [hexVal_hexDigitChar (c.toNat / 16) (by omega)]
                    rw [hexVal_hexDigitChar (c.toNat % 16) (by omega)]
                    simp only [Option.some_bind, List.drop_succ_cons,
                      List.drop_zero, ih, Option.map_some']
                    rw [show 0 * 4096 + 0 * 256 + c.toNat / 16 * 16 +
                      c.toNat % 16 = c.toNat from by omega, Char.ofNat_toNat]
                  · rw [show jsonEscapeChar c = [c] from by
                      simp [jsonEscapeChar, h1, h2, h3, h4, h5, h6, h7, h8]]
                    simp only [List.cons_append, List.nil_append]
                    rw [parseStrBody, if_neg h1, if_neg h2]
                    simp only [ih, Option.map_some']

lemma jsonParse_stringify (v : JsValue) :
    jsonParse (jsonStringify v) = some v := by
  cases v with
  | jstr s =>
    show jsonParse ('"' :: (jsonEscapeList s.data ++ ['"'])) = some (.jstr s)
    rw [jsonParse]
    rw [if_pos rfl]
    rw [show jsonEscapeList s.data ++ ['"'] =
      jsonEscapeList s.data ++ '"' :: [] from rfl]
    rw [parseStrBody_escape s.data []]
    simp only [Option.some_bind, if_pos rfl]
    cases s
    rfl
  | jnum n =>
    by_cases hn : n < 0
    · show jsonParse (intToChars n) = some (.jnum n)
      rw [intToChars, if_pos hn]
      rw [jsonParse]
      rw [if_neg (by decide), if_neg (by decide), if_neg (by decide),
        if_neg (by decide), if_pos rfl]
      rw [parseDigits_natToChars n.natAbs]
      simp only [Option.map_some', Option.some.injEq, JsValue.jnum.injEq]
      omega
    · show jsonParse (intToChars n) = some (.jnum n)
      rw [intToChars, if_neg hn]
      obtain ⟨c, cs, hc⟩ : ∃ c cs, natToChars n.toNat = c :: cs := by
        rw [natToChars]
        by_cases h0 : n.toNat = 0
        · rw [if_pos h0]
          exact ⟨'0', [], rfl⟩
        · rw [if_neg h0]
          rcases hrev : (natDigitsRev n.toNat).reverse with _ | ⟨x, xs⟩
          · exfalso
            have : natDigitsRev n.toNat = [] := by
              have := congrArg List.reverse hrev
              simpa using this
            rw [natDigitsRev, if_neg h0] at this
            cases this
          · exact ⟨x, xs, rfl⟩
      have hcd : 48 ≤ c.toNat ∧ c.toNat ≤ 57 := by
        by_cases h0 : n.toNat = 0
        · rw [natToChars, if_pos h0] at hc
          cases hc
          constructor <;> decide
        · rw [natToChars, if_neg h0] at hc
          have : c ∈ (natDigitsRev n.toNat).reverse := by
            rw [hc]
            simp
          exact natDigitsRev_mem_digits n.toNat c (List.mem_reverse.mp this)
      rw [hc, jsonParse]
      rw [if_neg (by intro h; rw [h] at hcd; simp at hcd),
        if_neg (by intro h; rw [h] at hcd; simp at hcd),
        if_neg (by intro h; rw [h] at hcd; simp at hcd),
        if_neg (by intro h; rw [h] at hcd; simp at hcd),
        if_neg (by intro h; rw [h] at hcd; simp at hcd)]
      rw [← hc, parseDigits_natToChars n.toNat]
      simp only [Option.map_some', Option.some.injEq, JsValue.jnum.injEq]
      omega
  | jbool b =>
    cases b <;> decide
  | jnull =>
    decide

/-! ### Shape facts about serialized JSON values -/

lemma mem_of_getLast?_eq {α : Type} :
    ∀ (l : List α) (c : α), l.getLast? = some c → c ∈ l
  | [], c, h => by cases h
  | [a], c, h => by
    simp only [List.getLast?_singleton, Option.some.injEq] at h
    simp [h]
  | a :: b :: t, c, h => by
    rw [List.getLast?_cons_cons] at h
    exact List.mem_cons_of_mem a (mem_of_getLast?_eq (b :: t) c h)

lemma natToChars_all_digits (m : Nat) :
    ∀ c ∈ natToChars m, 48 ≤ c.toNat ∧ c.toNat ≤ 57 := by
  intro c hc
  rw [natToChars] at hc
  by_cases h0 : m = 0
  · rw [if_pos h0] at hc
    simp at hc
    subst hc
    constructor <;> decide
  · rw [if_neg h0] at hc
    exact natDigitsRev_mem_digits m c (List.mem_reverse.mp hc)

lemma natToChars_ne_nil (m : Nat) : natToChars m ≠ [] := by
  rw [natToChars]
  by_cases h0 : m = 0
  · rw [if_pos h0]
    simp
  · rw [if_neg h0]
    have : natDigitsRev m ≠ [] := by
      rw [natDigitsRev, if_neg h0]
      simp
    simpa using this

lemma jsonStringify_ne_nil (v : JsValue) : jsonStringify v ≠ [] := by
  cases v with
  | jstr s => simp [jsonStringify]
  | jnum n =>
    show intToChars n ≠ []
    rw [intToChars]
    by_cases hn : n < 0
    · rw [if_pos hn]
      simp
    · rw [if_neg hn]
      exact natToChars_ne_nil _
  | jbool b => cases b <;> simp [jsonStringify]
  | jnull => simp [jsonStringify]

lemma jsonStringify_head_safe (v : JsValue) (c : Char)
    (h : (jsonStringify v).head? = some c) :
    c ≠ '*' ∧ c ≠ '%' ∧ c ≠ '_' := by
  cases v with
  | jstr s =>
    have hc : c = '"' := Option.some.inj
      ((show (jsonStringify (JsValue.jstr s)).head? = some '"' from
        rfl).symm.trans h) |>.symm
    rw [hc]
    refine ⟨by decide, by decide, by decide⟩
  | jnum n =>
    have hdig : 48 ≤ c.toNat ∧ c.toNat ≤ 57 ∨ c = '-' := by
      have h' : (intToChars n).head? = some c := h
      rw [intToChars] at h'
      by_cases hn : n < 0
      · rw [if_pos hn] at h'
        right
        exact (Option.some.inj
          ((show ('-' :: natToChars n.natAbs).head? = some '-' from
            rfl).symm.trans h')).symm
      · rw [if_neg hn] at h'
        left
        rcases hl : natToChars n.toNat with _ | ⟨c0, cs⟩
        · exact absurd hl (natToChars_ne_nil _)
        · rw [hl] at h'
          have hc : c = c0 := Option.some.inj
            ((show (c0 :: cs).head? = some c0 from rfl).symm.trans h') |>.symm
          rw [hc]
          exact natToChars_all_digits n.toNat c0
            (by rw [hl]; exact List.mem_cons_self _ _)
    rcases hdig with ⟨h1, h2⟩ | hm
    · refine ⟨?_, ?_, ?_⟩ <;> (intro he; rw [he] at h1 h2; simp at h1 h2)
    · rw [hm]
      refine ⟨by decide, by decide, by decide⟩
  | jbool b =>
    cases b with
    | false =>
      have hc : c = 'f' := Option.some.inj
        ((show (jsonStringify (JsValue.jbool false)).head? = some 'f' from
          rfl).symm.trans h) |>.symm
      rw [hc]
      refine ⟨by decide, by decide, by decide⟩
    | true =>
      have hc : c = 't' := Option.some.inj
        ((show (jsonStringify (JsValue.jbool true)).head? = some 't' from
          rfl).symm.trans h) |>.symm
      rw [hc]
      refine ⟨by decide, by decide, by decide⟩
  | jnull =>
    have hc : c = 'n' := Option.some.inj
      ((show (jsonStringify JsValue.jnull).head? = some 'n' from
        rfl).symm.trans h) |>.symm
    rw [hc]
    refine ⟨by decide, by decide, by decide⟩

lemma jsonStringify_last_safe (v : JsValue) (c : Char)
    (h : (jsonStringify v).getLast? = some c) :
    c ≠ '*' ∧ c ≠ '%' ∧ c ≠ '_' := by
  cases v with
  | jstr s =>
    have h' : (('"' :: jsonEscapeList s.data) ++ ['"']).getLast? = some c := by
      simpa [jsonStringify] using h
    rw [List.getLast?_concat] at h'
    have hc : c = '"' := (Option.some.inj h').symm
    rw [hc]
    refine ⟨by decide, by decide, by decide⟩
  | jnum n =>
    have hdig : 48 ≤ c.toNat ∧ c.toNat ≤ 57 := by
      have h' : (intToChars n).getLast? = some c := h
      rw [intToChars] at h'
      by_cases hn : n < 0
      · rw [if_pos hn] at h'
        rcases hl : natToChars n.natAbs with _ | ⟨c0, cs⟩
        · exact absurd hl (natToChars_ne_nil _)
        · rw [hl, List.getLast?_cons_cons] at h'
          have hmem : c ∈ natToChars n.natAbs := by
            rw [hl]
            exact mem_of_getLast?_eq (c0 :: cs) c h'
          exact natToChars_all_digits n.natAbs c hmem
      · rw [if_neg hn] at h'
        exact natToChars_all_digits n.toNat c (mem_of_getLast?_eq _ c h')
    obtain ⟨h1, h2⟩ := hdig
    refine ⟨?_, ?_, ?_⟩ <;> (intro he; rw [he] at h1 h2; simp at h1 h2)
  | jbool b =>
    cases b with
    | false =>
      rw [show (jsonStringify (JsValue.jbool false)).getLast? = some 'e' from
        by decide] at h
      have hc : c = 'e' := (Option.some.inj h).symm
      rw [hc]
      refine ⟨by decide, by decide, by decide⟩
    | true =>
      rw [show (jsonStringify (JsValue.jbool true)).getLast? = some 'e' from
        by decide] at h
      have hc : c = 'e' := (Option.some.inj h).symm
      rw [hc]
      refine ⟨by decide, by decide, by decide⟩
  | jnull =>
    rw [show (jsonStringify JsValue.jnull).getLast? = some 'l' from
      by decide] at h
    have hc : c = 'l' := (Option.some.inj h).symm
    rw [hc]
    refine ⟨by decide, by decide, by decide⟩

/-! ### JS `String.split` on a token, at the character-list level -/

/-- `leadsWith sep s`: `sep` is a prefix of `s`. -/
def leadsWith : List Char → List Char → Bool
  | [], _ => true
  | _ :: _, [] => false
  | a :: as, b :: bs => a == b && leadsWith as bs

/-- Index of the first occurrence of `sep` (non-empty) in `s`. -/
def findTok (sep : List Char) : List Char → Option Nat
  | [] => none
  | c :: tl =>
    if leadsWith sep (c :: tl) then some 0 else (findTok sep tl).map (· + 1)

/-- JS `s.split(sep)` for a non-empty separator: leftmost,
non-overlapping. -/
def splitTok (sep s : List Char) : List (List Char) :=
  if hsep : sep = [] then [s]
  else
    match hf : findTok sep s with
    | none => [s]
    | some i => s.take i :: splitTok sep (s.drop (i + sep.length))
termination_by s.length
decreasing_by
  have h1 : sep.length ≠ 0 := by simpa using hsep
  have h2 : s ≠ [] := by
    intro he
    rw [he] at hf
    exact Option.noConfusion hf
  have h3 := List.length_pos.mpr h2
  simp only [List.length_drop]
  omega

lemma leadsWith_append_self (sep r : List Char) :
    leadsWith sep (sep ++ r) = true := by
  induction sep with
  | nil => rfl
  | cons a as ih => simp [leadsWith, ih]

lemma leadsWith_nil_false (sep : List Char) (h : sep ≠ []) :
    leadsWith sep [] = false := by
  cases sep with
  | nil => exact absurd rfl h
  | cons a as => rfl

lemma findTok_none_noTok (sep s : List Char) (hsep : sep ≠ [])
    (h : findTok sep s = none) :
    ∀ j, leadsWith sep (s.drop j) = false := by
  induction s with
  | nil =>
    intro j
    rw [List.drop_nil]
    exact leadsWith_nil_false sep hsep
  | cons c tl ih =>
    have hsplit : leadsWith sep (c :: tl) = false ∧ findTok sep tl = none := by
      rw [findTok] at h
      by_cases hl : leadsWith sep (c :: tl) = true
      · rw [if_pos hl] at h
        cases h
      · rw [if_neg hl] at h
        refine ⟨by simpa using hl, ?_⟩
        exact Option.map_eq_none'.mp h
    intro j
    cases j with
    | zero => exact hsplit.1
    | succ j =>
      rw [List.drop_succ_cons]
      exact ih hsplit.2 j

lemma noTok_findTok_none (sep s : List Char)
    (h : ∀ j, leadsWith sep (s.drop j) = false) : findTok sep s = none := by
  induction s with
  | nil => rfl
  | cons c tl ih =>
    rw [findTok, if_neg (by rw [show c :: tl = (c :: tl).drop 0 from rfl, h 0]; simp)]
    rw [ih fun j => by
      have := h (j + 1)
      rwa [List.drop_succ_cons] at this]
    rfl

lemma findTok_append_sep (sep a r : List Char) (hsep : sep ≠ [])
    (H : ∀ j, j < a.length →
      leadsWith sep (a.drop j ++ (sep ++ r)) = false) :
    findTok sep (a ++ (sep ++ r)) = some a.length := by
  induction a with
  | nil =>
    rw [List.nil_append]
    cases hs : sep with
    | nil => exact absurd hs hsep
    | cons x xs =>
      rw [show (x :: xs) ++ r = x :: (xs ++ r) from rfl, findTok,
        if_pos (by rw [show x :: (xs ++ r) = (x :: xs) ++ r from rfl, ← hs,
          leadsWith_append_self])]
      rfl
  | cons c a' ih =>
    have h0 := H 0 (by simp)
    rw [List.drop_zero] at h0
    rw [show (c :: a') ++ (sep ++ r) = c :: (a' ++ (sep ++ r)) from rfl,
      findTok, if_neg (by
        rw [show c :: (a' ++ (sep ++ r)) = (c :: a') ++ (sep ++ r) from rfl,
          h0]
        simp)]
    rw [ih (fun j hj => by
      have := H (j + 1) (by simpa using Nat.succ_lt_succ hj)
      rwa [List.drop_succ_cons] at this)]
    rfl

lemma splitTok_of_none (sep s : List Char) (hsep : sep ≠ [])
    (h : findTok sep s = none) : splitTok sep s = [s] := by
  rw [splitTok, dif_neg hsep]
  split
  · rfl
  · next i heq =>
    rw [h] at heq
    cases heq

lemma splitTok_cons_sep (sep a r : List Char) (hsep : sep ≠ [])
    (hfind : findTok sep (a ++ (sep ++ r)) = some a.length) :
    splitTok sep (a ++ (sep ++ r)) = a :: splitTok sep r := by
  rw [splitTok, dif_neg hsep]
  split
  · next heq =>
    rw [hfind] at heq
    cases heq
  · next i heq =>
    rw [hfind] at heq
    injection heq with heq
    subst heq
    congr 1
    · exact List.take_left a (sep ++ r)
    · rw [show a.length + sep.length = (a ++ sep).length from
        (List.length_append a sep).symm, ← List.append_assoc,
        List.drop_left]

lemma leadsWith_split (sep : List Char) :
    ∀ (x y : List Char), leadsWith sep (x ++ y) = true →
      (sep.length ≤ x.length ∧ leadsWith sep x = true) ∨
      (x.length < sep.length ∧ x = sep.take x.length ∧
        leadsWith (sep.drop x.length) y = true) := by
  induction sep with
  | nil =>
    intro x y _
    left
    exact ⟨by simp, rfl⟩
  | cons a as ih =>
    intro x y h
    cases x with
    | nil =>
      right
      refine ⟨by simp, by simp, ?_⟩
      simpa using h
    | cons b bs =>
      rw [show (b :: bs) ++ y = b :: (bs ++ y) from rfl] at h
      simp only [leadsWith, Bool.and_eq_true, beq_iff_eq] at h
      obtain ⟨hab, h2⟩ := h
      rcases ih bs y h2 with ⟨hl, hlw⟩ | ⟨hl, heq, hlw⟩
      · left
        constructor
        · simpa using Nat.succ_le_succ hl
        · simp [leadsWith, hab, hlw]
      · right
        refine ⟨by simpa using Nat.succ_lt_succ hl, ?_, ?_⟩
        · simp only [List.length_cons, List.take_succ_cons, hab]
          rw [← heq]
        · simpa using hlw

/-- Overlap analysis for a separator of shape `['_', x, '_']` with
`x ≠ '_'`: if `a` contains no occurrence of the separator and does not end
with `['_', x]`, no occurrence of the separator in `a ++ sep ++ r` starts
strictly inside `a`. -/
lemma sepPat_no_overlap (x : Char) (hx : x ≠ '_') (a r : List Char)
    (hno : findTok ['_', x, '_'] a = none)
    (hsuf : a.drop (a.length - 2) ≠ ['_', x]) :
    ∀ j, j < a.length →
      leadsWith ['_', x, '_'] (a.drop j ++ (['_', x, '_'] ++ r)) = false := by
  intro j hj
  by_contra hcon
  rw [Bool.not_eq_false] at hcon
  rcases leadsWith_split ['_', x, '_'] (a.drop j) (['_', x, '_'] ++ r) hcon
    with ⟨hl, hlw⟩ | ⟨hl, heq, hlw⟩
  · have := findTok_none_noTok ['_', x, '_'] a (by simp) hno j
    rw [this] at hlw
    cases hlw
  · have hdl : (a.drop j).length = a.length - j := List.length_drop j a
    have ht : (a.drop j).length = 1 ∨ (a.drop j).length = 2 := by
      simp only [List.length_cons, List.length_nil] at hl
      omega
    rcases ht with ht | ht
    · rw [ht] at heq hlw
      rw [show (['_', x, '_'].drop 1) = [x, '_'] from rfl] at hlw
      rw [show ['_', x, '_'] ++ r = '_' :: (x :: '_' :: r) from rfl] at hlw
      simp only [leadsWith, Bool.and_eq_true, beq_iff_eq] at hlw
      exact hx hlw.1
    · rw [ht] at heq
      have hj2 : j = a.length - 2 := by omega
      rw [← hj2] at hsuf
      exact hsuf (by rw [heq]; rfl)

/-- `sep ++ v₁ ++ sep ++ v₂ ++ …` (the tail of a separator-join). -/
def tailJoin (sep : List Char) : List (List Char) → List Char
  | [] => []
  | v :: vs => sep ++ v ++ tailJoin sep vs

/-- `v₀ ++ sep ++ v₁ ++ …`: JS `Array.join(sep)` at character level. -/
def joinWith (sep : List Char) : List (List Char) → List Char
  | [] => []
  | v :: vs => v ++ tailJoin sep vs

lemma joinWith_cons_cons (sep v w : List Char) (vs : List (List Char)) :
    joinWith sep (v :: w :: vs) = v ++ (sep ++ joinWith sep (w :: vs)) := by
  simp [joinWith, tailJoin, List.append_assoc]

lemma getLast?_drop_of_ne_nil {α : Type} :
    ∀ (l : List α) (k : Nat), l.drop k ≠ [] →
      l.getLast? = (l.drop k).getLast?
  | l, 0, _ => by rw [List.drop_zero]
  | [], k + 1, h => by
    rw [List.drop_nil] at h
    exact absurd rfl h
  | a :: tl, k + 1, h => by
    rw [List.drop_succ_cons] at h ⊢
    have htl : tl ≠ [] := by
      intro he
      rw [he, List.drop_nil] at h
      exact h rfl
    have hrec := getLast?_drop_of_ne_nil tl k h
    rw [← hrec]
    cases htl0 : tl with
    | nil => exact absurd htl0 htl
    | cons b t => rw [List.getLast?_cons_cons]

lemma getLast?_of_drop_eq_pair {α : Type} (l : List α) (k : Nat) (c1 c2 : α)
    (h : l.drop k = [c1, c2]) : l.getLast? = some c2 := by
  rw [getLast?_drop_of_ne_nil l k (by rw [h]; simp), h]
  rfl

lemma noTok_append (sep X Y : List Char)
    (hX : ∀ j, leadsWith sep (X.drop j) = false)
    (hY : ∀ j, leadsWith sep (Y.drop j) = false)
    (hglue : ∀ t, 0 < t → t < sep.length →
      ¬(X.drop (X.length - t) = sep.take t ∧
        leadsWith (sep.drop t) Y = true)) :
    ∀ j, leadsWith sep ((X ++ Y).drop j) = false := by
  intro j
  rw [List.drop_append_eq_append_drop]
  by_cases hj : j < X.length
  · rw [Nat.sub_eq_zero_of_le (le_of_lt hj), List.drop_zero]
    by_contra hcon
    rw [Bool.not_eq_false] at hcon
    rcases leadsWith_split sep (X.drop j) Y hcon with ⟨hl, hlw⟩ | ⟨hl, heq, hlw⟩
    · rw [hX j] at hlw
      cases hlw
    · have hdl : (X.drop j).length = X.length - j := List.length_drop j X
      refine hglue (X.drop j).length (by omega) hl ⟨?_, hlw⟩
      rw [show X.length - (X.drop j).length = j from by omega]
      exact heq
  · push_neg at hj
    rw [List.drop_eq_nil_of_le hj, List.nil_append]
    exact hY (j - X.length)

lemma noTok3_joinWith :
    ∀ vals : List (List Char),
      (∀ v ∈ vals, findTok ['_', '*', '_'] v = none ∧
        v.head? ≠ some '*' ∧ v.drop (v.length - 2) ≠ ['_', '*'] ∧ v ≠ []) →
      ∀ j, leadsWith ['_', '*', '_']
        ((joinWith ['_', '%', '_'] vals).drop j) = false
  | [], _ => by
    intro j
    rw [show joinWith ['_', '%', '_'] [] = [] from rfl, List.drop_nil]
    exact leadsWith_nil_false _ (by simp)
  | [v], hc => by
    rw [show joinWith ['_', '%', '_'] [v] = v ++ [] from rfl,
      List.append_nil]
    exact findTok_none_noTok _ v (by simp) (hc v (by simp)).1
  | v :: w :: vs, hc => by
    rw [joinWith_cons_cons]
    have hY : ∀ j, leadsWith ['_', '*', '_']
        ((['_', '%', '_'] ++ joinWith ['_', '%', '_'] (w :: vs)).drop j) =
        false := by
      apply noTok_append
      · intro j
        match j with
        | 0 => decide
        | 1 => decide
        | 2 => decide
        | n + 3 =>
          rw [show (['_', '%', '_'] : List Char).drop (n + 3) = [] from by
            simp]
          decide
      · exact noTok3_joinWith (w :: vs) (fun u hu => hc u (by simp [hu]))
      · intro t ht1 ht3
        have ht : t = 1 ∨ t = 2 := by
          simp only [List.length_cons, List.length_nil] at ht3
          omega
        rcases ht with ht | ht
        · subst ht
          rintro ⟨_, hLw⟩
          obtain ⟨hw1, hw2, hw3, hw4⟩ := hc w (by simp)
          cases hwl : w with
          | nil => exact absurd hwl hw4
          | cons c0 cs =>
            rw [show joinWith ['_', '%', '_'] (w :: vs) =
              w ++ tailJoin ['_', '%', '_'] vs from rfl, hwl] at hLw
            rw [show (c0 :: cs) ++ tailJoin ['_', '%', '_'] vs =
              c0 :: (cs ++ tailJoin ['_', '%', '_'] vs) from rfl] at hLw
            rw [show (['_', '*', '_'] : List Char).drop 1 = ['*', '_'] from
              rfl] at hLw
            simp only [leadsWith, Bool.and_eq_true, beq_iff_eq] at hLw
            apply hw2
            rw [hwl]
            rw [show c0 = '*' from hLw.1.symm]
            rfl
        · subst ht
          rintro ⟨hEq, _⟩
          revert hEq
          decide
    apply noTok_append
    · exact findTok_none_noTok _ v (by simp) (hc v (by simp)).1
    · exact hY
    · intro t ht1 ht3
      have ht : t = 1 ∨ t = 2 := by
        simp only [List.length_cons, List.length_nil] at ht3
        omega
      rcases ht with ht | ht
      · subst ht
        rintro ⟨_, hLw⟩
        rw [show (['_', '*', '_'] : List Char).drop 1 = ['*', '_'] from rfl,
          show (['_', '%', '_'] : List Char) ++
            joinWith ['_', '%', '_'] (w :: vs) =
            '_' :: ('%' :: '_' :: joinWith ['_', '%', '_'] (w :: vs)) from
            rfl] at hLw
        simp only [leadsWith, Bool.and_eq_true, beq_iff_eq] at hLw
        exact absurd hLw.1 (by decide)
      · subst ht
        rintro ⟨hEq, _⟩
        rw [show (['_', '*', '_'] : List Char).take 2 = ['_', '*'] from
          rfl] at hEq
        exact (hc v (by simp)).2.2.1 hEq

lemma splitTok_joinWith (x : Char) (hx : x ≠ '_') :
    ∀ vals : List (List Char), vals ≠ [] →
      (∀ v ∈ vals, findTok ['_', x, '_'] v = none ∧
        v.drop (v.length - 2) ≠ ['_', x]) →
      splitTok ['_', x, '_'] (joinWith ['_', x, '_'] vals) = vals
  | [], h, _ => absurd rfl h
  | [v], _, hc => by
    rw [show joinWith ['_', x, '_'] [v] = v ++ [] from rfl, List.append_nil]
    exact splitTok_of_none _ v (by simp) (hc v (by simp)).1
  | v :: w :: vs, _, hc => by
    rw [joinWith_cons_cons]
    have hfind := findTok_append_sep ['_', x, '_'] v
      (joinWith ['_', x, '_'] (w :: vs)) (by simp)
      (sepPat_no_overlap x hx v _ (hc v (by simp)).1 (hc v (by simp)).2)
    rw [splitTok_cons_sep _ _ _ (by simp) hfind]
    rw [splitTok_joinWith x hx (w :: vs) (by simp)
      (fun u hu => hc u (by simp [hu]))]

lemma mapM_ok_of_forall_ok {α β : Type} (f : α → Except String β) :
    ∀ (l : List α) (g : α → β), (∀ a ∈ l, f a = .ok (g a)) →
      l.mapM f = .ok (l.map g)
  | [], g, _ => rfl
  | a :: l, g, h => by
    rw [List.mapM_cons, h a (by simp),
      mapM_ok_of_forall_ok f l g (fun b hb => h b (by simp [hb]))]
    rfl

namespace Knex

/-- `SEPARATION_TOKEN` of the Knex connector. -/
def SEPARATION_TOKEN : String := "_*_"

/-- `ARRAY_DATA_SEPARATION_TOKEN` of the Knex connector. -/
def ARRAY_DATA_SEPARATION_TOKEN : String := "_%_"

/-- `cursorGenerator(id, customColumnValue)`; the `${id}` coercion of the
`string | number` id is applied by the caller. -/
def cursorGenerator (id : String) (customColumnValue : String) : String :=
  encode (id ++ SEPARATION_TOKEN ++ customColumnValue)

/-- JS truthiness of the `index` argument inside the connector's cursor
data fold: `null` and `0` are falsy. -/
def jsIdxTruthy : Option Nat → Bool
  | none => false
  | some i => i != 0

/-- The `dataValue` accumulation of `convertNodesToEdges`: one
`JSON.stringify` per ordering column, joined by the array-data token,
silently skipping columns the node has no value for (`undefined`). -/
def dataValueOf (opts : OrderArgs KNode) (node : KNode) : String :=
  operateOverScalarOrArray "" opts.orderColumn
    (fun orderBy index prev =>
      match List.lookup orderBy node with
      | none => prev
      | some nodeValue =>
        prev ++
          (if jsIdxTruthy index then ARRAY_DATA_SEPARATION_TOKEN else "") ++
          String.mk (jsonStringify nodeValue))

/-- `convertNodesToEdges` of the Knex connector: JS `Array.prototype.map`
with a throwing callback is fail-fast, hence the `Except`. -/
def convertNodesToEdges :
    List KNode → SliceParams → OrderArgs KNode →
      Except String (List (Edge KNode))
  | [], _, _ => .ok []
  | node :: rest, ps, opts =>
    match List.lookup opts.primaryKey node with
    | none =>
      .error ("Could not find primary key " ++ opts.primaryKey ++ " in node")
    | some nodePrimaryKey =>
      (convertNodesToEdges rest ps opts).map
        (fun edges =>
          ⟨cursorGenerator (jsToString nodePrimaryKey) (dataValueOf opts node),
            node⟩ :: edges)

/-- `JSON.parse` as used by `getDataFromCursor` (a throw on malformed
input). -/
def jsonParseE (l : List Char) : Except String JsValue :=
  match jsonParse l with
  | some v => .ok v
  | none => .error "Unexpected token in JSON"

/-- `getDataFromCursor`: decode, split on the separation token, require
both `data[0]` and `data[1]`, then JSON-parse the array-data pieces of
`data[1]`. -/
def getDataFromCursor (cursor : String) :
    Except String (String × List JsValue) :=
  match splitTok SEPARATION_TOKEN.data (decode cursor).data with
  | d0 :: d1 :: _ =>
    ((splitTok ARRAY_DATA_SEPARATION_TOKEN.data d1).mapM jsonParseE).map
      (fun values => (String.mk d0, values))
  | _ => .error ("Could not find edge with cursor " ++ cursor)

/-- The list of ordering columns denoted by a scalar-or-array
`orderColumn`. -/
def orderColsList : StrOrArr → List String
  | .scalar c => [c]
  | .arr l => l

/-- One step of the `dataValue` fold, at array index `p.1` over column
`p.2` (definitionally the fold body of `dataValueOf` on arrays). -/
def cursorStep (node : KNode) (r : String) (p : Nat × String) : String :=
  match List.lookup p.2 node with
  | none => r
  | some nodeValue =>
    r ++
      (if jsIdxTruthy (some p.1) then ARRAY_DATA_SEPARATION_TOKEN else "") ++
      String.mk (jsonStringify nodeValue)

end Knex

lemma str_data_append (a b : String) : (a ++ b).data = a.data ++ b.data := by
  cases a
  cases b
  rfl

lemma str_mk_data (l : List Char) : (String.mk l).data = l := rfl

namespace Knex

lemma fold_dataValue (node : KNode) :
    ∀ (cols : List String) (vals : List JsValue),
      cols.map (fun c => List.lookup c node) = vals.map some →
      ∀ (k : Nat) (acc : List Char),
        List.foldl (cursorStep node) (String.mk acc) (cols.enumFrom (k + 1))
          = String.mk
            (acc ++ tailJoin ['_', '%', '_'] (vals.map jsonStringify))
  | [], vals, hv, k, acc => by
    have hvn : vals = [] := by
      cases vals with
      | nil => rfl
      | cons v vs => simp at hv
    subst hvn
    rw [show ([] : List String).enumFrom (k + 1) = [] from rfl,
      List.foldl_nil, show tailJoin ['_', '%', '_'] ([].map jsonStringify)
        = [] from rfl, List.append_nil]
  | c :: cols', vals, hv, k, acc => by
    cases vals with
    | nil => simp at hv
    | cons v vs =>
      simp only [List.map_cons, List.cons.injEq] at hv
      rw [show (c :: cols').enumFrom (k + 1) =
        (k + 1, c) :: cols'.enumFrom (k + 1 + 1) from rfl, List.foldl_cons]
      have hstep : cursorStep node (String.mk acc) (k + 1, c) =
          String.mk ((acc ++ ['_', '%', '_']) ++ jsonStringify v) := by
        simp only [cursorStep, hv.1]
        rfl
      rw [hstep, fold_dataValue node cols' vs hv.2 (k + 1)
        ((acc ++ ['_', '%', '_']) ++ jsonStringify v)]
      simp [tailJoin, List.append_assoc]

lemma dataValueOf_joinWith (opts : OrderArgs KNode) (node : KNode)
    (vals : List JsValue)
    (hv : (orderColsList opts.orderColumn).map (fun c => List.lookup c node)
      = vals.map some) :
    dataValueOf opts node =
      String.mk (joinWith ['_', '%', '_'] (vals.map jsonStringify)) := by
  cases hoc : opts.orderColumn with
  | scalar c =>
    rw [hoc] at hv
    simp only [orderColsList, List.map_cons, List.map_nil] at hv
    cases vals with
    | nil => simp at hv
    | cons v vs =>
      cases vs with
      | cons w ws => simp at hv
      | nil =>
        simp only [List.map_cons, List.map_nil, List.cons.injEq,
          and_true] at hv
        unfold dataValueOf
        rw [hoc]
        simp only [operateOverScalarOrArray, hv]
        exact congrArg String.mk (List.append_nil (jsonStringify v)).symm
  | arr cols =>
    rw [hoc] at hv
    simp only [orderColsList] at hv
    cases cols with
    | nil =>
      cases vals with
      | cons v vs => simp at hv
      | nil =>
        unfold dataValueOf
        rw [hoc]
        rfl
    | cons c cols' =>
      cases vals with
      | nil => simp at hv
      | cons v vs =>
        simp only [List.map_cons, List.cons.injEq] at hv
        unfold dataValueOf
        rw [hoc]
        show List.foldl (cursorStep node) (cursorStep node "" (0, c))
          (cols'.enumFrom (0 + 1)) =
          String.mk (joinWith ['_', '%', '_'] ((v :: vs).map jsonStringify))
        have hstep : cursorStep node "" (0, c) =
            String.mk (jsonStringify v) := by
          simp only [cursorStep, hv.1]
          rfl
        rw [hstep, show String.mk (jsonStringify v) =
          String.mk ([] ++ jsonStringify v) from rfl]
        rw [fold_dataValue node cols' vs hv.2 0 ([] ++ jsonStringify v)]
        rfl

lemma mapM_jsonParseE_map_stringify :
    ∀ vals : List JsValue,
      (vals.map jsonStringify).mapM jsonParseE = .ok vals
  | [] => rfl
  | v :: vs => by
    have h1 : jsonParseE (jsonStringify v) = .ok v := by
      simp only [jsonParseE, jsonParse_stringify]
    rw [List.map_cons, List.mapM_cons, h1,
      mapM_jsonParseE_map_stringify vs]
    rfl

end Knex

/-- C9 (counterexample): a node lacking a value for the ordering column
`"name"` required by the active order spec is NOT rejected by
`convertNodesToEdges`: the missing value is silently skipped and an edge
with partial (empty) cursor data is produced. -/
theorem missing_order_value_silently_skipped_cx :
    Knex.convertNodesToEdges [[("id", JsValue.jstr "1")]] {}
      { orderColumn := .scalar "name", ascOrDesc := .scalar "asc",
        primaryKey := "id" } =
      .ok [⟨Knex.cursorGenerator "1" "", [("id", JsValue.jstr "1")]⟩] := by
  rfl

/-- C9 (amended): `convertNodesToEdges` raises only for a missing primary
key value — with the message naming the primary key — while a node whose
primary key is present is always converted to an edge (missing ordering
values are silently skipped in the cursor data, not rejected). -/
theorem missing_primary_key_error (opts : OrderArgs Knex.KNode)
    (ps : SliceParams) (node : Knex.KNode) (rest : List Knex.KNode) :
    (List.lookup opts.primaryKey node = none →
      Knex.convertNodesToEdges (node :: rest) ps opts =
        .error ("Could not find primary key " ++ opts.primaryKey ++
          " in node")) ∧
    (∀ pv, List.lookup opts.primaryKey node = some pv →
      Knex.convertNodesToEdges [node] ps opts =
        .ok [⟨Knex.cursorGenerator (jsToString pv)
          (Knex.dataValueOf opts node), node⟩]) := by
  constructor
  · intro h
    simp only [Knex.convertNodesToEdges, h]
  · intro pv h
    simp only [Knex.convertNodesToEdges, h]
    rfl

/-- C9 witness: with primary key `id`, converting a node without an `id`
value errors with the message naming `id`, and converting a node carrying
`id` succeeds. -/
theorem missing_primary_key_error_witness :
    Knex.convertNodesToEdges [[("x", JsValue.jnum 1)]] {}
      { orderColumn := .scalar "a", ascOrDesc := .scalar "asc",
        primaryKey := "id" } =
      .error "Could not find primary key id in node" ∧
    Knex.convertNodesToEdges [[("id", JsValue.jstr "1")]] {}
      { orderColumn := .scalar "a", ascOrDesc := .scalar "asc",
        primaryKey := "id" } =
      .ok [⟨Knex.cursorGenerator "1"
        (Knex.dataValueOf
          { orderColumn := .scalar "a", ascOrDesc := .scalar "asc",
            primaryKey := "id" } [("id", JsValue.jstr "1")]),
        [("id", JsValue.jstr "1")]⟩] :=
  ⟨(missing_primary_key_error
      { orderColumn := .scalar "a", ascOrDesc := .scalar "asc",
        primaryKey := "id" } {} [("x", JsValue.jnum 1)] []).1 (by decide),
   (missing_primary_key_error
      { orderColumn := .scalar "a", ascOrDesc := .scalar "asc",
        primaryKey := "id" } {} [("id", JsValue.jstr "1")] []).2
     (JsValue.jstr "1") (by decide)⟩

/-- C10 (counterexample): a node whose primary-key value itself contains
the reserved substring `_*_` (here `a_*_b`) has a defined primary key and
delimiter-free serialized ordering values (`"n"`), yet its cursor does not
round-trip: the decoded cursor splits into three pieces, `data[1]` is the
fragment `b`, and `JSON.parse` of it throws. -/
theorem knex_cursor_recovery_cx :
    Knex.convertNodesToEdges
      [[("id", JsValue.jstr "a_*_b"), ("n", JsValue.jstr "n")]] {}
      { orderColumn := .scalar "n", ascOrDesc := .scalar "asc",
        primaryKey := "id" } =
      .ok [⟨Knex.cursorGenerator "a_*_b" "\"n\"",
        [("id", JsValue.jstr "a_*_b"), ("n", JsValue.jstr "n")]⟩] ∧
    Knex.getDataFromCursor (Knex.cursorGenerator "a_*_b" "\"n\"") =
      .error "Unexpected token in JSON" := by
  constructor
  · rfl
  · have h1 : Knex.cursorGenerator "a_*_b" "\"n\"" =
        encode (String.mk (['a'] ++ (['_', '*', '_'] ++
          (['b'] ++ (['_', '*', '_'] ++ ['"', 'n', '"']))))) := rfl
    rw [h1]
    unfold Knex.getDataFromCursor
    rw [decode_encode_str, str_mk_data,
      show Knex.SEPARATION_TOKEN.data = ['_', '*', '_'] from rfl]
    rw [splitTok_cons_sep ['_', '*', '_'] ['a']
      (['b'] ++ (['_', '*', '_'] ++ ['"', 'n', '"'])) (by simp) (by decide)]
    rw [splitTok_cons_sep ['_', '*', '_'] ['b'] ['"', 'n', '"']
      (by simp) (by decide)]
    rw [splitTok_of_none ['_', '*', '_'] ['"', 'n', '"'] (by simp)
      (by decide)]
    show ((splitTok Knex.ARRAY_DATA_SEPARATION_TOKEN.data ['b']).mapM
        Knex.jsonParseE).map
        (fun values => (String.mk ['a'], values)) =
      .error "Unexpected token in JSON"
    rw [show Knex.ARRAY_DATA_SEPARATION_TOKEN.data = ['_', '%', '_'] from rfl,
      splitTok_of_none ['_', '%', '_'] ['b'] (by simp) (by decide)]
    rfl

/-- C10 (amended): Knex cursors round-trip when, in addition to the
serialized ordering values avoiding the delimiters `_*_` and `_%_`, the
node has at least one ordering value and the primary key's string form
neither contains `_*_` nor ends in `_*`; then `convertNodesToEdges` emits
the generated cursor and `getDataFromCursor` recovers the primary-key
string together with the JSON-decoded ordering values. -/
theorem knex_cursor_recovery (opts : OrderArgs Knex.KNode)
    (node : Knex.KNode) (pv : JsValue) (vals : List JsValue)
    (ps : SliceParams)
    (hpk : List.lookup opts.primaryKey node = some pv)
    (hvals : (Knex.orderColsList opts.orderColumn).map
      (fun c => List.lookup c node) = vals.map some)
    (hne : vals ≠ [])
    (hsep3 : ∀ v ∈ vals, findTok ['_', '*', '_'] (jsonStringify v) = none)
    (hsep5 : ∀ v ∈ vals, findTok ['_', '%', '_'] (jsonStringify v) = none)
    (hpk3 : findTok ['_', '*', '_'] (jsToString pv).data = none)
    (hpk2 : (jsToString pv).data.drop ((jsToString pv).data.length - 2)
      ≠ ['_', '*']) :
    Knex.convertNodesToEdges [node] ps opts =
      .ok [⟨Knex.cursorGenerator (jsToString pv)
        (Knex.dataValueOf opts node), node⟩] ∧
    Knex.getDataFromCursor
      (Knex.cursorGenerator (jsToString pv) (Knex.dataValueOf opts node)) =
      .ok (jsToString pv, vals) := by
  have hdv : Knex.dataValueOf opts node =
      String.mk (joinWith ['_', '%', '_'] (vals.map jsonStringify)) :=
    Knex.dataValueOf_joinWith opts node vals hvals
  constructor
  · simp only [Knex.convertNodesToEdges, hpk]
    rfl
  · have hjoined_noTok : ∀ j, leadsWith ['_', '*', '_']
        ((joinWith ['_', '%', '_'] (vals.map jsonStringify)).drop j) =
        false := by
      apply noTok3_joinWith
      intro u hu
      obtain ⟨w, hw, rfl⟩ := List.mem_map.mp hu
      refine ⟨hsep3 w hw, ?_, ?_, jsonStringify_ne_nil w⟩
      · intro hh
        exact (jsonStringify_head_safe w '*' hh).1 rfl
      · intro hdp
        exact (jsonStringify_last_safe w '*'
          (getLast?_of_drop_eq_pair _ _ '_' '*' hdp)).1 rfl
    have hfind3 : findTok ['_', '*', '_'] ((jsToString pv).data ++
        (['_', '*', '_'] ++ joinWith ['_', '%', '_']
          (vals.map jsonStringify))) =
        some (jsToString pv).data.length :=
      findTok_append_sep _ _ _ (by simp)
        (sepPat_no_overlap '*' (by decide) _ _ hpk3 hpk2)
    have hsplit_outer := splitTok_cons_sep ['_', '*', '_']
      (jsToString pv).data
      (joinWith ['_', '%', '_'] (vals.map jsonStringify)) (by simp) hfind3
    have hsplit_none := splitTok_of_none ['_', '*', '_']
      (joinWith ['_', '%', '_'] (vals.map jsonStringify)) (by simp)
      (noTok_findTok_none _ _ hjoined_noTok)
    have hsplit5 : splitTok ['_', '%', '_']
        (joinWith ['_', '%', '_'] (vals.map jsonStringify)) =
        vals.map jsonStringify := by
      apply splitTok_joinWith '%' (by decide)
      · intro h0
        exact hne (List.map_eq_nil_iff.mp h0)
      · intro u hu
        obtain ⟨w, hw, rfl⟩ := List.mem_map.mp hu
        refine ⟨hsep5 w hw, ?_⟩
        intro hdp
        exact (jsonStringify_last_safe w '%'
          (getLast?_of_drop_eq_pair _ _ '_' '%' hdp)).2.1 rfl
    unfold Knex.getDataFromCursor
    simp only [Knex.cursorGenerator, decode_encode_str]
    rw [str_data_append, str_data_append, hdv, str_mk_data,
      show Knex.SEPARATION_TOKEN.data = ['_', '*', '_'] from rfl,
      List.append_assoc, hsplit_outer, hsplit_none]
    show ((splitTok Knex.ARRAY_DATA_SEPARATION_TOKEN.data
        (joinWith ['_', '%', '_'] (vals.map jsonStringify))).mapM
          Knex.jsonParseE).map
        (fun values => (String.mk (jsToString pv).data, values)) =
      .ok (jsToString pv, vals)
    rw [show Knex.ARRAY_DATA_SEPARATION_TOKEN.data = ['_', '%', '_'] from
      rfl, hsplit5, Knex.mapM_jsonParseE_map_stringify]
    rfl

/-- C10 witness: a node with primary key `i1` and two ordering values,
the string `"x"` and the boolean `true`, converts to an edge whose cursor
decodes back to (`i1`, `[jstr "x", jbool true]`). -/
theorem knex_cursor_recovery_witness :
    Knex.convertNodesToEdges
      [[("id", JsValue.jstr "i1"), ("a", JsValue.jstr "x"),
        ("b", JsValue.jbool true)]] {}
      { orderColumn := .arr ["a", "b"], ascOrDesc := .arr ["asc", "desc"],
        primaryKey := "id" } =
      .ok [⟨Knex.cursorGenerator "i1"
        (Knex.dataValueOf
          { orderColumn := .arr ["a", "b"],
            ascOrDesc := .arr ["asc", "desc"], primaryKey := "id" }
          [("id", JsValue.jstr "i1"), ("a", JsValue.jstr "x"),
            ("b", JsValue.jbool true)]),
        [("id", JsValue.jstr "i1"), ("a", JsValue.jstr "x"),
          ("b", JsValue.jbool true)]⟩] ∧
    Knex.getDataFromCursor
      (Knex.cursorGenerator "i1"
        (Knex.dataValueOf
          { orderColumn := .arr ["a", "b"],
            ascOrDesc := .arr ["asc", "desc"], primaryKey := "id" }
          [("id", JsValue.jstr "i1"), ("a", JsValue.jstr "x"),
            ("b", JsValue.jbool true)])) =
      .ok ("i1", [JsValue.jstr "x", JsValue.jbool true]) :=
  knex_cursor_recovery
    { orderColumn := .arr ["a", "b"], ascOrDesc := .arr ["asc", "desc"],
      primaryKey := "id" }
    [("id", JsValue.jstr "i1"), ("a", JsValue.jstr "x"),
      ("b", JsValue.jbool true)]
    (JsValue.jstr "i1") [JsValue.jstr "x", JsValue.jbool true] {}
    (by decide) (by decide) (by decide) (by decide) (by decide) (by decide)
    (by decide)

end ApolloPagination
